import Mathlib

/-!
Verification of the data-transformation and metrics pipeline of a GitHub
repository dashboard (`data_processor.py`).  The pipeline's functions are
shallowly embedded over lists of typed records; timestamps are modelled as
timezone-naive whole seconds since 1970-01-01 (a `Nat`), durations in days as
exact rationals (the Python code computes `total_seconds() / 86400` in
floating point; we model the same arithmetic exactly).  Pandas-specific
behaviour that the code relies on (time `Grouper` bins, `strftime`,
`Period.__str__`, `value_counts`, outer-merge loops) is embedded explicitly
and documented at each definition.
-/

namespace PMM

/-! ## Generic list machinery -/

/-- Stable insertion of `x` into `l` placing `x` before the first element `y`
with `le x y`.  Used to model the sorting steps of the pipeline. -/
def sortedInsert (le : α → α → Bool) (x : α) : List α → List α
  | [] => [x]
  | y :: ys => if le x y then x :: y :: ys else y :: sortedInsert le x ys

/-- Stable insertion sort by the boolean relation `le`. -/
def sortLe (le : α → α → Bool) : List α → List α
  | [] => []
  | x :: xs => sortedInsert le x (sortLe le xs)

/-- One step of the find-or-append outer-merge loops of
`create_throughput_data` / `create_contributor_leaderboard`: if a row keyed
`k` exists, overwrite its second counter with `v`; otherwise append a fresh
row `(k, 0, v)` at the end. -/
def upsert (k : String) (v : Nat) : List (String × Nat × Nat) → List (String × Nat × Nat)
  | [] => [(k, 0, v)]
  | e :: es => if e.1 = k then (e.1, e.2.1, v) :: es else e :: upsert k v es

/-- Apply `upsert` for every keyed count of `secs` in order, exactly like the
Python `for`-loop over the second grouped series. -/
def applySeconds : List (String × Nat × Nat) → List (String × Nat) → List (String × Nat × Nat)
  | rows, [] => rows
  | rows, e :: es => applySeconds (upsert e.1 e.2 rows) es

/-- Outer-merge of two keyed count lists: rows of `firsts` seeded with second
counter `0`, then every count of `seconds` upserted.  This is the shared shape
of the throughput merge loop and the contributor-dictionary build. -/
def mergeCounts (firsts seconds : List (String × Nat)) : List (String × Nat × Nat) :=
  applySeconds (firsts.map (fun e => (e.1, e.2, 0))) seconds

/-! ## Strings and decimal rendering -/

/-- Lexicographic comparison on character lists (by code point), the order
pandas uses when sorting a column of strings. -/
def strLeAux : List Char → List Char → Bool
  | [], _ => true
  | _ :: _, [] => false
  | a :: as, b :: bs =>
    if a.toNat < b.toNat then true else if b.toNat < a.toNat then false else strLeAux as bs

/-- Lexicographic string comparison. -/
def strLe (a b : String) : Bool := strLeAux a.data b.data

/-- The decimal digit character for `k < 10`. -/
def digitChar (k : Nat) : Char := Char.ofNat (48 + k)

/-- Decimal digits, fuel-structured so that the kernel can evaluate it (the
fuel exceeds the digit count whenever it exceeds `n`). -/
def natDigitsAux : Nat → Nat → List Char
  | 0, _ => []
  | fuel + 1, n =>
    if n < 10 then [digitChar n] else natDigitsAux fuel (n / 10) ++ [digitChar (n % 10)]

/-- Decimal digits of `n`, most significant first (no sign, no padding). -/
def natDigits (n : Nat) : List Char := natDigitsAux (n + 1) n

/-- Decimal rendering of a natural number. -/
def natStr (n : Nat) : String := ⟨natDigits n⟩

/-- Two-digit zero-padded rendering (`%m`, `%d`) of `n < 100`. -/
def twoDigits (n : Nat) : List Char := [digitChar (n / 10 % 10), digitChar (n % 10)]

/-! ## Gregorian calendar (timezone-naive, epoch 1970-01-01) -/

/-- Gregorian leap-year test. -/
def isLeap (y : Nat) : Bool := (y % 4 == 0 && y % 100 != 0) || (y % 400 == 0)

/-- Number of days in year `y`. -/
def daysInYear (y : Nat) : Nat := if isLeap y then 366 else 365

/-- Month lengths of a year, leap flag given. -/
def monthLengths (leap : Bool) : List Nat :=
  [31, if leap then 29 else 28, 31, 30, 31, 30, 31, 31, 30, 31, 30, 31]

/-- Number of days in month `m` (1-based) of year `y`. -/
def daysInMonth (y m : Nat) : Nat := (monthLengths (isLeap y)).getD (m - 1) 0

/-- Walk years upward from `y`, consuming `n` remaining days; fuel-structured
(every step consumes at least 365 days, so `n < fuel * 365` suffices). -/
def yearSplitAux : Nat → Nat → Nat → Nat × Nat
  | 0, y, n => (y, n)
  | fuel + 1, y, n =>
    if n < daysInYear y then (y, n) else yearSplitAux fuel (y + 1) (n - daysInYear y)

/-- Walk years upward from `y`, consuming `n` remaining days; returns the year
reached and the day offset inside it. -/
def yearSplit (y n : Nat) : Nat × Nat := yearSplitAux (n + 1) y n

/-- Walk a list of month lengths, consuming `n` remaining days; returns the
1-based month (starting at `m`) and the 1-based day of month. -/
def splitMonths : List Nat → Nat → Nat → Nat × Nat
  | [], m, n => (m, n + 1)
  | len :: rest, m, n => if n < len then (m, n + 1) else splitMonths rest (m + 1) (n - len)

/-- Civil date `(year, month, day)` of day index `d` (days since 1970-01-01). -/
def ymdOfDay (d : Nat) : Nat × Nat × Nat :=
  let p := yearSplit 1970 d
  let q := splitMonths (monthLengths (isLeap p.1)) 1 p.2
  (p.1, q.1, q.2)

/-- Total days in the years `a, a+1, …, b-1`, fuel-structured on the year
count `b - a`. -/
def daysFromToAux : Nat → Nat → Nat → Nat
  | 0, _, _ => 0
  | fuel + 1, a, b => if a < b then daysInYear a + daysFromToAux fuel (a + 1) b else 0

/-- Total days in the years `a, a+1, …, b-1`. -/
def daysFromTo (a b : Nat) : Nat := daysFromToAux (b - a) a b

/-- Days occupied by the months strictly before month `m` (1-based). -/
def monthsBefore (leap : Bool) (m : Nat) : Nat := ((monthLengths leap).take (m - 1)).sum

/-- Day index (days since 1970-01-01) of the civil date `(y, m, d)`. -/
def dayOfYMD (y m d : Nat) : Nat := daysFromTo 1970 y + monthsBefore (isLeap y) m + (d - 1)

/-- Day index of a timestamp in seconds. -/
def dayIndex (t : Nat) : Nat := t / 86400

/-- The Sunday on or after day `d` (1970-01-01 is a Thursday, so Sundays are
the day indices congruent to 3 mod 7).  Pandas labels a `freq='W'` bin (a
Monday-to-Sunday week) by its Sunday. -/
def nextSunday (d : Nat) : Nat := d + (10 - d % 7) % 7

/-- The last day of the month containing day `d`.  Pandas labels a `freq='M'`
bin by the month-end timestamp. -/
def monthEnd (d : Nat) : Nat :=
  let t := ymdOfDay d
  dayOfYMD t.1 t.2.1 (daysInMonth t.1 t.2.1)

/-- The `strftime` format `%Y-%m-%d` applied to the civil date `(y, m, d)`. -/
def fmtYMD (y m d : Nat) : String :=
  ⟨natDigits y ++ Char.ofNat 45 :: (twoDigits m ++ Char.ofNat 45 :: twoDigits d)⟩

/-- The `strftime` format `%Y-%m-%d` applied to a day index. -/
def fmtDay (d : Nat) : String := fmtYMD (ymdOfDay d).1 (ymdOfDay d).2.1 (ymdOfDay d).2.2

/-! ## Period (bucket) selection and pandas time grouping -/

/-- The three pandas grouping frequencies the code selects between
(`'D'`, `'W'`, `'M'`). -/
inductive Freq
  | D
  | W
  | M
deriving DecidableEq

/-- Bucket label (as a day index) that the pandas `Grouper` assigns to an
event on day `d`: the day itself for daily bins, the closing Sunday of the
Monday-to-Sunday week for weekly bins, the month end for monthly bins. -/
def labelOf : Freq → Nat → Nat
  | .D, d => d
  | .W, d => nextSunday d
  | .M, d => monthEnd d

/-- Period selection in `create_throughput_data` (lines 278-289):
`days_range = (end_date - start_date).days`, then `'D'` if `≤ 7`, `'W'` if
`≤ 30`, `'W'` again if `≤ 90`, else `'M'`.  A negative Python range floors to
a negative day count and selects daily; truncated `Nat` subtraction gives `0`
days there and selects daily as well. -/
def selectPeriodThroughput (s e : Nat) : Freq :=
  let daysRange := (e - s) / 86400
  if daysRange ≤ 7 then .D
  else if daysRange ≤ 30 then .W
  else if daysRange ≤ 90 then .W
  else .M

/-- Period selection in `create_cycle_time_data` (lines 364-373), written as
its own definition because the source repeats the rule verbatim. -/
def selectPeriodCycleTime (s e : Nat) : Freq :=
  let daysRange := (e - s) / 86400
  if daysRange ≤ 7 then .D
  else if daysRange ≤ 30 then .W
  else if daysRange ≤ 90 then .W
  else .M

/-- Minimum of a timestamp list (0 on the empty list, which is never used). -/
def minT : List Nat → Nat
  | [] => 0
  | t :: ts => ts.foldl Nat.min t

/-- Maximum of a timestamp list. -/
def maxT : List Nat → Nat
  | [] => 0
  | t :: ts => ts.foldl Nat.max t

/-- The bin labels a pandas `Grouper(freq)` produces for the event times
`ts`: every distinct label of a day between the earliest and latest event
(inclusive).  A `groupby(Grouper(freq)).size()` is gap-filling, so bins with
no event between the first and the last one are present with count 0; the set
of bins below matches that behaviour (deduplicated labels of every day of the
span). -/
def binsOf (f : Freq) (ts : List Nat) : List Nat :=
  match ts with
  | [] => []
  | _ :: _ =>
    let dlo := dayIndex (minT ts)
    let dhi := dayIndex (maxT ts)
    ((List.range (dhi + 1 - dlo)).map (fun k => labelOf f (dlo + k))).dedup

/-- `groupby(pd.Grouper(key, freq)).size()`: one `(bin label, count)` pair per
bin of the span of `ts`. -/
def groupCounts (f : Freq) (ts : List Nat) : List (Nat × Nat) :=
  (binsOf f ts).map (fun b => (b, ts.countP (fun t => labelOf f (dayIndex t) == b)))

/-! ## Normalized records

The typed rows of the two DataFrames, with exactly the fields that
`github_api.get_issue_data` / `get_pr_data` produce.  Timestamps are seconds
since epoch; nullable timestamps are `Option Nat`; `get_pr_data` coerces a
null body to `''`, so `body` is a plain `String`. -/

/-- One normalized issue row. -/
structure Issue where
  number : Nat
  title : String
  state : String
  created_at : Nat
  closed_at : Option Nat
  user : String
  labels : List String
  comments : Nat
  is_pr : Bool
deriving DecidableEq

/-- One normalized pull-request row. -/
structure PullReq where
  number : Nat
  title : String
  state : String
  created_at : Nat
  closed_at : Option Nat
  merged_at : Option Nat
  user : String
  labels : List String
  comments : Nat
  review_comments : Nat
  body : String
  is_pr : Bool
  merged : Bool
deriving DecidableEq

/-! ## Metrics Engine: calculate_kpis -/

/-- The KPI dictionary of `calculate_kpis`.  Averages are exact rationals
standing for the float day values of the code. -/
structure Kpis where
  total_issues : Nat
  total_prs : Nat
  open_issues : Nat
  open_prs : Nat
  closed_issues : Nat
  merged_prs : Nat
  avg_issue_resolution_days : ℚ
  avg_pr_merge_days : ℚ
deriving DecidableEq

/-- `DataProcessor.calculate_kpis` (lines 208-260).  Counts are `len` of
boolean-filtered frames.  For the averages the code filters the closed issues
(resp. merged PRs), and if any of them has a non-null `closed_at` (resp.
`merged_at`) it takes the pandas mean of `(closed_at - created_at)` in days,
which skips the null rows; otherwise the sentinel 0.  The `filterMap` below
collects exactly the non-null durations, so its emptiness coincides with the
code's `not (nonempty and notna().any())` guard. -/
def calculate_kpis (issues : List Issue) (prs : List PullReq) : Kpis :=
  let resTimes := (issues.filter (fun i => i.state == "closed")).filterMap
    (fun i => i.closed_at.map (fun (c : Nat) => ((c : ℚ) - (i.created_at : ℚ)) / 86400))
  let mergeTimes := (prs.filter (fun p => p.merged)).filterMap
    (fun p => p.merged_at.map (fun (m : Nat) => ((m : ℚ) - (p.created_at : ℚ)) / 86400))
  { total_issues := issues.length
    total_prs := prs.length
    open_issues := (issues.filter (fun i => i.state == "open")).length
    open_prs := (prs.filter (fun p => p.state == "open")).length
    closed_issues := (issues.filter (fun i => i.state == "closed")).length
    merged_prs := (prs.filter (fun p => p.merged)).length
    avg_issue_resolution_days :=
      if resTimes.isEmpty then 0 else resTimes.sum / (resTimes.length : ℚ)
    avg_pr_merge_days :=
      if mergeTimes.isEmpty then 0 else mergeTimes.sum / (mergeTimes.length : ℚ) }

/-- The issues the specification says the resolution average ranges over:
`state == closed` and `closed_at` present. -/
def qualifyingIssues (issues : List Issue) : List Issue :=
  issues.filter (fun i => i.state == "closed" && i.closed_at.isSome)

/-- Resolution time in days of an issue, `(closed_at − created_at)` in seconds
divided by 86400, reading a missing `closed_at` as 0 (only ever applied to
qualifying issues, whose `closed_at` is present). -/
def specResolutionDays (i : Issue) : ℚ :=
  ((i.closed_at.getD 0 : ℚ) - (i.created_at : ℚ)) / 86400

/-! ## Cross-Reference Extractor: extract_pr_issue_linkage -/

/-- All capture groups of `re.findall(r'#(\d+)', body)`: the maximal digit
runs immediately following a hash, scanned left to right without overlap.
The four verb-qualified patterns of the source (`closes?`, `fixes?`,
`resolves?`, `related to`, each followed by `\s+#(\d+)`) capture the same
digit run that the bare hash pattern already captures at that position, so
the union of the five match sets that the code accumulates into its Python
set equals the match set of the bare pattern alone. -/
def findRefsAux : Nat → List Char → List String
  | 0, _ => []
  | _, [] => []
  | fuel + 1, c :: rest =>
    if c = Char.ofNat 35 then
      let ds := rest.takeWhile (fun d => d.isDigit)
      if ds.isEmpty then findRefsAux fuel rest
      else String.mk ds :: findRefsAux fuel (rest.drop ds.length)
    else findRefsAux fuel rest

/-- Scan of a body for all hash-number references (fuel-structured on the
text length, which bounds the scan steps). -/
def findRefs (cs : List Char) : List String := findRefsAux cs.length cs

/-- Numeric value of a digit string, the `int` key used by
`sorted(linked_issues, key=int)`. -/
def strToNat (s : String) : Nat := s.data.foldl (fun a c => 10 * a + (c.toNat - 48)) 0

/-- One linkage row (`PR Number`, `PR Title`, `Linked Issues`). -/
structure LinkRow where
  pr_number : Nat
  pr_title : String
  linked_issues : String
deriving DecidableEq

/-- `DataProcessor.extract_pr_issue_linkage` (lines 108-155).  For each PR
with a truthy (non-empty) body, the digit strings of every pattern match are
accumulated into a set; a row is emitted only when the set is non-empty, with
the members sorted by integer value and joined by `', '` (comma and space).
The Python set is modelled as the deduplicated match list; the sort key makes
the row independent of set iteration order whenever the numeric values are
distinct. -/
def extract_pr_issue_linkage (prs : List PullReq) : List LinkRow :=
  prs.filterMap (fun p =>
    let refs := if p.body = "" then [] else (findRefs p.body.data).dedup
    if refs.isEmpty then none
    else some ⟨p.number, p.title,
      String.intercalate ", " (sortLe (fun a b => decide (strToNat a ≤ strToNat b)) refs)⟩)

/-! ## Categorical Aggregator: create_contributor_leaderboard -/

/-- `pandas.Series.value_counts` as a keyed count list: one entry per
distinct value with its multiplicity.  `value_counts` orders entries by
descending count; that order only determines the dictionary insertion order
in the leaderboard build, which the final non-stable `sort_values('Total')`
does not preserve among ties anyway, so the deduplication order is left as
the order of `List.dedup`. -/
def valueCounts (l : List String) : List (String × Nat) :=
  l.dedup.map (fun u => (u, l.count u))

/-- One leaderboard row. -/
structure LRow where
  contributor : String
  issues : Nat
  prs : Nat
  total : Nat
deriving DecidableEq

/-- `DataProcessor.create_contributor_leaderboard` (lines 66-106): an
`Issues`/`PRs` counter dictionary built from the two `value_counts` (first
issues, then PRs via find-or-create), `Total = Issues + PRs`, sorted by
`Total` descending. -/
def create_contributor_leaderboard (issues : List Issue) (prs : List PullReq) : List LRow :=
  let ic := valueCounts (issues.map (fun i => i.user))
  let pc := valueCounts (prs.map (fun p => p.user))
  sortLe (fun a b => decide (b.total ≤ a.total))
    ((mergeCounts ic pc).map (fun e => ⟨e.1, e.2.1, e.2.2, e.2.1 + e.2.2⟩))

/-! ## Time-Series Aggregator: throughput and cycle time -/

/-- The closure timestamps that `create_throughput_data` counts: issues with
`state == 'closed'` whose `closed_at` is present (a null becomes `NaT`, and
`NaT` fails both window comparisons) and lies inside `[s, e]`. -/
def closedTimes (issues : List Issue) (s e : Nat) : List Nat :=
  issues.filterMap (fun i =>
    match i.closed_at with
    | some c => if i.state == "closed" ∧ s ≤ c ∧ c ≤ e then some c else none
    | none => none)

/-- The merge timestamps that `create_throughput_data` counts: PRs with
`merged == True` whose `merged_at` is present and lies inside `[s, e]`. -/
def mergedTimes (prs : List PullReq) (s e : Nat) : List Nat :=
  prs.filterMap (fun p =>
    match p.merged_at with
    | some m => if p.merged ∧ s ≤ m ∧ m ≤ e then some m else none
    | none => none)

/-- One throughput row (`Period`, `Closed_Issues`, `Merged_PRs`). -/
structure TRow where
  Period : String
  Closed_Issues : Nat
  Merged_PRs : Nat
deriving DecidableEq

/-- `DataProcessor.create_throughput_data` (lines 262-332): both event series
are grouped by the selected `Grouper` frequency, the bin labels rendered with
`strftime('%Y-%m-%d')`, the merged-PR counts folded into the closed-issue
rows by the find-or-append loop, and the rows sorted by the `Period`
string. -/
def create_throughput_data (issues : List Issue) (prs : List PullReq) (s e : Nat) :
    List TRow :=
  let f := selectPeriodThroughput s e
  let cc := (groupCounts f (closedTimes issues s e)).map (fun bc => (fmtDay bc.1, bc.2))
  let mc := (groupCounts f (mergedTimes prs s e)).map (fun bc => (fmtDay bc.1, bc.2))
  (sortLe (fun a b => strLe a.1 b.1) (mergeCounts cc mc)).map
    (fun e => ⟨e.1, e.2.1, e.2.2⟩)

/-- The string `str(pandas.Period(t, freq))`: `YYYY-MM-DD` for daily periods,
`start/end` (Monday/Sunday, both `YYYY-MM-DD`) for weekly periods, `YYYY-MM`
for monthly periods.  This is the `Period` key of the cycle-time table
(`.dt.to_period(period)` then `astype(str)`). -/
def periodStr : Freq → Nat → String
  | .D, t => fmtDay (dayIndex t)
  | .W, t => fmtDay (nextSunday (dayIndex t) - 6) ++ "/" ++ fmtDay (nextSunday (dayIndex t))
  | .M, t =>
    ⟨natDigits (ymdOfDay (dayIndex t)).1 ++ Char.ofNat 45 :: twoDigits (ymdOfDay (dayIndex t)).2.1⟩

/-- One cycle-time row (`Period`, `Avg_Cycle_Time_Days`). -/
structure CRow where
  Period : String
  Avg_Cycle_Time_Days : ℚ
deriving DecidableEq

/-- The per-PR rows `create_cycle_time_data` aggregates: merged PRs with
`created_at ≥ s` and a present `merged_at ≤ e` (a null `merged_at` fails the
comparison), carrying `(merged_at, cycle time in days)`. -/
def cycleItems (prs : List PullReq) (s e : Nat) : List (Nat × ℚ) :=
  (prs.filter (fun p => p.merged)).filterMap (fun p =>
    match p.merged_at with
    | some m =>
      if s ≤ p.created_at ∧ m ≤ e then
        some (m, ((m : ℚ) - (p.created_at : ℚ)) / 86400)
      else none
    | none => none)

/-- `DataProcessor.create_cycle_time_data` (lines 334-382): the qualifying
merged PRs, grouped by the pandas `Period` containing `merged_at` (rendered
via `astype(str)`) and averaged per group.  `groupby` sorts the `Period`
group keys; on the `YYYY…` renderings involved the string order used below
agrees with the chronological period order. -/
def create_cycle_time_data (prs : List PullReq) (s e : Nat) : List CRow :=
  if (cycleItems prs s e).isEmpty then []
  else
    let f := selectPeriodCycleTime s e
    let keys := ((cycleItems prs s e).map (fun it => periodStr f it.1)).dedup
    (sortLe strLe keys).map (fun k =>
      let vs := (cycleItems prs s e).filterMap
        (fun it => if periodStr f it.1 = k then some it.2 else none)
      ⟨k, vs.sum / (vs.length : ℚ)⟩)

/-! ## Issue aging -/

/-- One aging row (`Age_Bucket`, `Count`). -/
structure ARow where
  Age_Bucket : String
  Count : Nat
deriving DecidableEq

/-- Age of an issue in days at `cur`: `(current_date - created_at)` in
seconds over 86400 (negative when the issue was created after `cur`, exactly
as the float subtraction behaves). -/
def ageDays (cur created : Nat) : ℚ := ((cur : ℚ) - (created : ℚ)) / 86400

/-- The `get_age_bucket` classifier of `create_issue_aging_data`. -/
def ageBucket (a : ℚ) : String :=
  if a ≤ 7 then "0-7 days" else if a ≤ 30 then "7-30 days" else "30+ days"

/-- Display position of a bucket name, the code's `bucket_order` map. -/
def bucketOrder (b : String) : Nat :=
  if b = "0-7 days" then 0 else if b = "7-30 days" then 1 else 2

/-- The canonical bucket list of the source (`all_buckets`). -/
def allBuckets : List String := ["0-7 days", "7-30 days", "30+ days"]

/-- `DataProcessor.create_issue_aging_data` (lines 384-430): open issues
only, and an *empty* table when there is none (the early returns); otherwise
`value_counts` over the buckets, missing buckets appended with count 0, and
the rows sorted by bucket order. -/
def create_issue_aging_data (issues : List Issue) (cur : Nat) : List ARow :=
  let opens := issues.filter (fun i => i.state == "open")
  if opens.isEmpty then []
  else
    let bl := opens.map (fun i => ageBucket (ageDays cur i.created_at))
    let vc := valueCounts bl
    let withAll := vc ++
      (allBuckets.filter (fun s => !(vc.map (fun e => e.1)).contains s)).map (fun s => (s, 0))
    (sortLe (fun a b => decide (bucketOrder a.1 ≤ bucketOrder b.1)) withAll).map
      (fun e => ⟨e.1, e.2⟩)

/-! ## Record Normalizer: create_dataframes

`create_dataframes` is verbatim `pd.DataFrame(issues), pd.DataFrame(prs)`.
`pd.DataFrame` on a list of dicts takes the union of the keys as columns and
fills a missing key of a row with the missing marker `NaN`; it performs no
validation whatsoever.  Raw items are modelled as key-value lists and a
DataFrame as its column list plus its rows, with cell access by key lookup
(`none` is the missing marker). -/

/-- A dynamically-typed raw field value as delivered by the fetch layer. -/
inductive RawValue
  | natV : Nat → RawValue
  | strV : String → RawValue
  | boolV : Bool → RawValue
  | listV : List String → RawValue
  | nullV : RawValue
deriving DecidableEq

/-- A raw item: a Python dict as a key-value list. -/
abbrev RawItem := List (String × RawValue)

/-- Cell access: the value of key `k`, `none` when the key is absent (the
`NaN` missing marker of the resulting frame). -/
def lookupKey (it : RawItem) (k : String) : Option RawValue :=
  (it.find? (fun e => e.1 == k)).map (fun e => e.2)

/-- A DataFrame built from raw items: the union of the keys as columns, the
items as rows. -/
structure RawTable where
  cols : List String
  rows : List RawItem
deriving DecidableEq

/-- Union of the keys of all items, as `pd.DataFrame` determines columns. -/
def unionKeys (items : List RawItem) : List String :=
  ((items.map (fun it => it.map (fun e => e.1))).flatten).dedup

/-- `DataProcessor.create_dataframes` (lines 16-30): exactly
`pd.DataFrame(issues), pd.DataFrame(prs)`, no validation, no failure path. -/
def create_dataframes (issues prs : List RawItem) : RawTable × RawTable :=
  (⟨unionKeys issues, issues⟩, ⟨unionKeys prs, prs⟩)

/-- `pd.DataFrame` applied to an existing DataFrame: a copy with identical
columns and rows, which is how a second pass of `create_dataframes` receives
the output tables of the first pass. -/
def pdDataFrameOfFrame (t : RawTable) : RawTable := t

/-- The second pass of the Record Normalizer on the first pass's output:
`pd.DataFrame` applied to each of the two DataFrames. -/
def renormalize (p : RawTable × RawTable) : RawTable × RawTable :=
  (pdDataFrameOfFrame p.1, pdDataFrameOfFrame p.2)

/-! ## Derived notions used in the claim statements -/

/-- Numeric value of a decimal digit list, the parsing inverse of
`natDigits`. -/
def unDigits (l : List Char) : Nat := l.foldl (fun a c => 10 * a + (c.toNat - 48)) 0

/-- The `Period` string an event timestamp contributes to in the throughput
table: the `strftime('%Y-%m-%d')` rendering of its `Grouper` bin label. -/
def bucketKey (f : Freq) (t : Nat) : String := fmtDay (labelOf f (dayIndex t))

/-- The period-selection rule exactly as the specification states it:
daily for a range of at most 7 days, weekly for at most 90, else monthly. -/
def specPeriodRule (s e : Nat) : Freq :=
  if (e - s) / 86400 ≤ 7 then .D else if (e - s) / 86400 ≤ 90 then .W else .M

/-! ## Concrete inputs used by counterexamples and witnesses -/

/-- Issue record builder for concrete test inputs. -/
def sampleIssue (num : Nat) (st : String) (created : Nat) (closed : Option Nat)
    (u : String) : Issue :=
  { number := num, title := "i", state := st, created_at := created, closed_at := closed,
    user := u, labels := [], comments := 0, is_pr := false }

/-- Pull-request record builder for concrete test inputs. -/
def samplePR (num : Nat) (st : String) (created : Nat) (merged_at : Option Nat)
    (u : String) (b : String) (m : Bool) : PullReq :=
  { number := num, title := "p", state := st, created_at := created, closed_at := none,
    merged_at := merged_at, user := u, labels := [], comments := 0, review_comments := 0,
    body := b, is_pr := true, merged := m }

/-- The pull request of the linkage scenario: number 5, body
`"Fixes #12 and relates to #7, also see #12"`. -/
def linkagePR : PullReq :=
  samplePR 5 "open" 0 none "alice" "Fixes #12 and relates to #7, also see #12" false

/-- A raw item that is missing the required field `number` (it has only
`title`, `created_at` and `state`). -/
def itemNoNumber : RawItem :=
  [("title", RawValue.strV "x"), ("created_at", RawValue.natV 0),
   ("state", RawValue.strV "open")]

/-! # Lemmas

## Insertion sort -/

theorem sortedInsert_perm (le : α → α → Bool) (x : α) (l : List α) :
    (sortedInsert le x l).Perm (x :: l) := by
  induction l with
  | nil => simp [sortedInsert]
  | cons y ys ih =>
    simp only [sortedInsert]
    split
    · exact List.Perm.refl _
    · exact (ih.cons y).trans (List.Perm.swap x y ys)

theorem sortLe_perm (le : α → α → Bool) (l : List α) : (sortLe le l).Perm l := by
  induction l with
  | nil => simp [sortLe]
  | cons x xs ih =>
    exact (sortedInsert_perm le x (sortLe le xs)).trans (ih.cons x)

theorem mem_sortedInsert (le : α → α → Bool) (x : α) (l : List α) (z : α) :
    z ∈ sortedInsert le x l ↔ z = x ∨ z ∈ l := by
  rw [(sortedInsert_perm le x l).mem_iff]
  simp

theorem sortedInsert_pairwise (le : α → α → Bool)
    (htot : ∀ a b, le a b = true ∨ le b a = true)
    (htrans : ∀ a b c, le a b = true → le b c = true → le a c = true)
    (x : α) (l : List α) (hl : l.Pairwise (fun a b => le a b = true)) :
    (sortedInsert le x l).Pairwise (fun a b => le a b = true) := by
  induction l with
  | nil => simp [sortedInsert]
  | cons y ys ih =>
    rcases List.pairwise_cons.mp hl with ⟨hy, hys⟩
    simp only [sortedInsert]
    split
    · rename_i hxy
      refine List.pairwise_cons.mpr ⟨?_, hl⟩
      intro z hz
      rcases List.mem_cons.mp hz with h | h
      · subst h
        exact hxy
      · exact htrans x y z hxy (hy z h)
    · rename_i hxy
      refine List.pairwise_cons.mpr ⟨?_, ih hys⟩
      intro z hz
      rcases (mem_sortedInsert le x ys z).mp hz with h | h
      · rcases htot x y with h2 | h2
        · exact absurd h2 hxy
        · rw [h]
          exact h2
      · exact hy z h

theorem sortLe_pairwise (le : α → α → Bool)
    (htot : ∀ a b, le a b = true ∨ le b a = true)
    (htrans : ∀ a b c, le a b = true → le b c = true → le a c = true)
    (l : List α) : (sortLe le l).Pairwise (fun a b => le a b = true) := by
  induction l with
  | nil => simp [sortLe]
  | cons x xs ih => exact sortedInsert_pairwise le htot htrans x (sortLe le xs) ih

/-! ## The find-or-append outer-merge loop -/

theorem upsert_map_fst (k : String) (v : Nat) (rows : List (String × Nat × Nat)) :
    (upsert k v rows).map (fun r => r.1) =
      if k ∈ rows.map (fun r => r.1) then rows.map (fun r => r.1)
      else rows.map (fun r => r.1) ++ [k] := by
  induction rows with
  | nil => simp [upsert]
  | cons e es ih =>
    simp only [upsert]
    by_cases he : e.1 = k
    · simp [he]
    · simp only [if_neg he, List.map_cons, ih]
      have hiff : (k ∈ e.1 :: es.map (fun r => r.1)) ↔ k ∈ es.map (fun r => r.1) := by
        constructor
        · intro h
          rcases List.mem_cons.mp h with h | h
          · exact absurd h.symm he
          · exact h
        · exact List.mem_cons_of_mem _
      by_cases hk : k ∈ es.map (fun r => r.1)
      · rw [if_pos hk, if_pos (hiff.mpr hk)]
      · rw [if_neg hk, if_neg (fun h => hk (hiff.mp h))]
        simp

theorem mem_upsert (k : String) (v : Nat) (rows : List (String × Nat × Nat))
    (hnd : (rows.map (fun r => r.1)).Nodup) :
    ∀ r ∈ upsert k v rows,
      (r ∈ rows ∧ r.1 ≠ k) ∨
      (r.1 = k ∧ r.2.2 = v ∧
        ((r.2.1 = 0 ∧ k ∉ rows.map (fun x => x.1)) ∨ ∃ w, (k, r.2.1, w) ∈ rows)) := by
  induction rows with
  | nil =>
    intro r hr
    simp only [upsert, List.mem_singleton] at hr
    subst hr
    exact Or.inr ⟨rfl, rfl, Or.inl ⟨rfl, by simp⟩⟩
  | cons e es ih =>
    simp only [List.map_cons, List.nodup_cons] at hnd
    intro r hr
    simp only [upsert] at hr
    by_cases he : e.1 = k
    · rw [if_pos he] at hr
      rcases List.mem_cons.mp hr with h | h
      · subst h
        exact Or.inr ⟨he, rfl, Or.inr ⟨e.2.2, by
          rw [← he]
          exact List.mem_cons_self _ _⟩⟩
      · refine Or.inl ⟨List.mem_cons_of_mem e h, ?_⟩
        intro hk
        apply hnd.1
        rw [he, ← hk]
        exact List.mem_map_of_mem (fun x => x.1) h
    · rw [if_neg he] at hr
      rcases List.mem_cons.mp hr with h | h
      · exact Or.inl ⟨h ▸ List.mem_cons_self e es, h ▸ he⟩
      · rcases ih hnd.2 r h with ⟨h1, h2⟩ | ⟨h1, h2, h3⟩
        · exact Or.inl ⟨List.mem_cons_of_mem e h1, h2⟩
        · refine Or.inr ⟨h1, h2, ?_⟩
          rcases h3 with ⟨h4, h5⟩ | ⟨w, hw⟩
          · refine Or.inl ⟨h4, ?_⟩
            simp only [List.map_cons, List.mem_cons]
            rintro (hh | hh)
            · exact he hh.symm
            · exact h5 hh
          · exact Or.inr ⟨w, List.mem_cons_of_mem e hw⟩

theorem upsert_nodup (k : String) (v : Nat) (rows : List (String × Nat × Nat))
    (hnd : (rows.map (fun r => r.1)).Nodup) :
    ((upsert k v rows).map (fun r => r.1)).Nodup := by
  rw [upsert_map_fst]
  split
  · exact hnd
  · rename_i hk
    simpa using List.Nodup.append hnd (List.nodup_singleton k) (by simpa using hk)

theorem upsert_keys_sub (k : String) (v : Nat) (rows : List (String × Nat × Nat)) :
    (upsert k v rows).map (fun r => r.1) ⊆ k :: rows.map (fun r => r.1) := by
  rw [upsert_map_fst]
  split
  · exact fun a ha => List.mem_cons_of_mem k ha
  · intro a ha
    rcases List.mem_append.mp ha with h | h
    · exact List.mem_cons_of_mem k h
    · simp only [List.mem_singleton] at h
      exact h ▸ List.mem_cons_self k _

theorem upsert_keys_sup (k : String) (v : Nat) (rows : List (String × Nat × Nat)) :
    rows.map (fun r => r.1) ⊆ (upsert k v rows).map (fun r => r.1) := by
  rw [upsert_map_fst]
  split
  · exact fun a ha => ha
  · exact fun a ha => List.mem_append.mpr (Or.inl ha)

theorem upsert_keys_self (k : String) (v : Nat) (rows : List (String × Nat × Nat)) :
    k ∈ (upsert k v rows).map (fun r => r.1) := by
  rw [upsert_map_fst]
  split
  · assumption
  · simp

theorem applySeconds_nodup (secs : List (String × Nat)) :
    ∀ rows : List (String × Nat × Nat), (rows.map (fun r => r.1)).Nodup →
      ((applySeconds rows secs).map (fun r => r.1)).Nodup := by
  induction secs with
  | nil => exact fun rows h => h
  | cons e es ih =>
    intro rows h
    exact ih (upsert e.1 e.2 rows) (upsert_nodup e.1 e.2 rows h)

theorem applySeconds_keys_sup (secs : List (String × Nat)) :
    ∀ rows : List (String × Nat × Nat),
      rows.map (fun r => r.1) ⊆ (applySeconds rows secs).map (fun r => r.1) := by
  induction secs with
  | nil => exact fun rows a ha => ha
  | cons e es ih =>
    intro rows a ha
    exact ih (upsert e.1 e.2 rows) (upsert_keys_sup e.1 e.2 rows ha)

theorem applySeconds_keys_of_secs (secs : List (String × Nat)) :
    ∀ rows : List (String × Nat × Nat), ∀ e ∈ secs,
      e.1 ∈ (applySeconds rows secs).map (fun r => r.1) := by
  induction secs with
  | nil => intro rows e he; cases he
  | cons s es ih =>
    intro rows e he
    rcases List.mem_cons.mp he with h | h
    · subst h
      exact applySeconds_keys_sup es (upsert e.1 e.2 rows)
        (upsert_keys_self e.1 e.2 rows)
    · exact ih (upsert s.1 s.2 rows) e h

theorem applySeconds_keys_sub (secs : List (String × Nat)) :
    ∀ rows : List (String × Nat × Nat),
      (applySeconds rows secs).map (fun r => r.1) ⊆
        rows.map (fun r => r.1) ++ secs.map (fun e => e.1) := by
  induction secs with
  | nil => intro rows a ha; exact List.mem_append.mpr (Or.inl ha)
  | cons s es ih =>
    intro rows a ha
    have := ih (upsert s.1 s.2 rows) ha
    rcases List.mem_append.mp this with h | h
    · rcases List.mem_cons.mp (upsert_keys_sub s.1 s.2 rows h) with h2 | h2
      · exact List.mem_append.mpr (Or.inr (h2 ▸ List.mem_cons_self _ _))
      · exact List.mem_append.mpr (Or.inl h2)
    · exact List.mem_append.mpr (Or.inr (List.mem_cons_of_mem _ h))

theorem applySeconds_spec (cnt1 cnt2 : String → Nat) (secs : List (String × Nat)) :
    ∀ rows : List (String × Nat × Nat),
      (rows.map (fun r => r.1)).Nodup →
      (secs.map (fun e => e.1)).Nodup →
      (∀ e ∈ secs, e.2 = cnt2 e.1) →
      (∀ e ∈ secs, e.1 ∉ rows.map (fun r => r.1) → cnt1 e.1 = 0) →
      (∀ r ∈ rows, r.2.1 = cnt1 r.1) →
      (∀ r ∈ rows, if r.1 ∈ secs.map (fun e => e.1) then r.2.2 = 0 else r.2.2 = cnt2 r.1) →
      ∀ r ∈ applySeconds rows secs, r.2.1 = cnt1 r.1 ∧ r.2.2 = cnt2 r.1 := by
  induction secs with
  | nil =>
    intro rows hnd _ _ _ h5 h6 r hr
    refine ⟨h5 r hr, ?_⟩
    have := h6 r hr
    simpa using this
  | cons s es ih =>
    intro rows hnd hsnd h3 h4 h5 h6 r hr
    simp only [List.map_cons, List.nodup_cons] at hsnd
    have hval : s.2 = cnt2 s.1 := h3 s (List.mem_cons_self s es)
    refine ih (upsert s.1 s.2 rows) (upsert_nodup s.1 s.2 rows hnd) hsnd.2
      (fun e he => h3 e (List.mem_cons_of_mem s he))
      (fun e he hnot => h4 e (List.mem_cons_of_mem s he)
        (fun hmem => hnot (upsert_keys_sup s.1 s.2 rows hmem)))
      ?_ ?_ r hr
    · intro x hx
      rcases mem_upsert s.1 s.2 rows hnd x hx with ⟨h1, _⟩ | ⟨h1, _, hc⟩
      · exact h5 x h1
      · rcases hc with ⟨hz, hnot⟩ | ⟨w, hw⟩
        · rw [hz, h1, h4 s (List.mem_cons_self s es) hnot]
        · have := h5 (s.1, x.2.1, w) hw
          simpa [h1] using this
    · intro x hx
      rcases mem_upsert s.1 s.2 rows hnd x hx with ⟨h1, h2⟩ | ⟨h1, h2, _⟩
      · have := h6 x h1
        simp only [List.map_cons, List.mem_cons] at this
        by_cases hes : x.1 ∈ es.map (fun e => e.1)
        · rw [if_pos hes]
          rw [if_pos (Or.inr hes)] at this
          exact this
        · rw [if_neg hes]
          rw [if_neg ?_] at this
          · exact this
          · rintro (hh | hh)
            · exact h2 hh
            · exact hes hh
      · rw [if_neg (h1 ▸ hsnd.1), h2, h1, hval]

theorem mergeCounts_spec (cnt1 cnt2 : String → Nat) (firsts seconds : List (String × Nat))
    (h1nd : (firsts.map (fun e => e.1)).Nodup) (h2nd : (seconds.map (fun e => e.1)).Nodup)
    (h1v : ∀ e ∈ firsts, e.2 = cnt1 e.1) (h2v : ∀ e ∈ seconds, e.2 = cnt2 e.1)
    (h1z : ∀ k, k ∉ firsts.map (fun e => e.1) → cnt1 k = 0)
    (h2z : ∀ k, k ∉ seconds.map (fun e => e.1) → cnt2 k = 0) :
    (∀ r ∈ mergeCounts firsts seconds, r.2.1 = cnt1 r.1 ∧ r.2.2 = cnt2 r.1) ∧
    ((mergeCounts firsts seconds).map (fun r => r.1)).Nodup ∧
    (∀ e ∈ firsts, e.1 ∈ (mergeCounts firsts seconds).map (fun r => r.1)) ∧
    (∀ e ∈ seconds, e.1 ∈ (mergeCounts firsts seconds).map (fun r => r.1)) ∧
    (mergeCounts firsts seconds).map (fun r => r.1) ⊆
      firsts.map (fun e => e.1) ++ seconds.map (fun e => e.1) := by
  have hbase : (firsts.map (fun e => (e.1, e.2, 0))).map
      (fun r : String × Nat × Nat => r.1) = firsts.map (fun e => e.1) := by
    rw [List.map_map]
    rfl
  refine ⟨?_, ?_, ?_, ?_, ?_⟩
  · apply applySeconds_spec cnt1 cnt2 seconds _ (by rw [hbase]; exact h1nd) h2nd h2v
    · intro e he hnot
      rw [hbase] at hnot
      exact h1z e.1 hnot
    · intro r hr
      rcases List.mem_map.mp hr with ⟨e, he, hre⟩
      rw [← hre]
      exact h1v e he
    · intro r hr
      rcases List.mem_map.mp hr with ⟨e, he, hre⟩
      split
      · rw [← hre]
      · rename_i hnot
        rw [← hre]
        simp only
        rw [← hre] at hnot
        exact (h2z _ hnot).symm
  · exact applySeconds_nodup seconds _ (by rw [hbase]; exact h1nd)
  · intro e he
    apply applySeconds_keys_sup
    rw [hbase]
    exact List.mem_map_of_mem (fun e => e.1) he
  · exact fun e he => applySeconds_keys_of_secs seconds _ e he
  · intro a ha
    have := applySeconds_keys_sub seconds _ ha
    rw [hbase] at this
    exact this

/-! ## Lexicographic string order -/

theorem strLeAux_total : ∀ a b : List Char, strLeAux a b = true ∨ strLeAux b a = true := by
  intro a
  induction a with
  | nil => intro b; exact Or.inl rfl
  | cons x xs ih =>
    intro b
    cases b with
    | nil => exact Or.inr rfl
    | cons y ys =>
      simp only [strLeAux]
      rcases Nat.lt_trichotomy x.toNat y.toNat with h | h | h
      · left
        rw [if_pos h]
      · rcases ih ys with h2 | h2
        · left
          rw [if_neg (by omega), if_neg (by omega)]
          exact h2
        · right
          rw [if_neg (by omega), if_neg (by omega)]
          exact h2
      · right
        rw [if_pos h]

theorem strLeAux_trans : ∀ a b c : List Char,
    strLeAux a b = true → strLeAux b c = true → strLeAux a c = true := by
  intro a
  induction a with
  | nil => intro b c _ _; rfl
  | cons x xs ih =>
    intro b c hab hbc
    cases b with
    | nil => exact absurd hab (by simp [strLeAux])
    | cons y ys =>
      cases c with
      | nil => exact absurd hbc (by simp [strLeAux])
      | cons z zs =>
        simp only [strLeAux] at hab hbc ⊢
        by_cases h1 : x.toNat < y.toNat
        · by_cases h2 : y.toNat < z.toNat
          · rw [if_pos (by omega)]
          · rw [if_neg h2] at hbc
            by_cases h3 : z.toNat < y.toNat
            · rw [if_pos h3] at hbc
              cases hbc
            · rw [if_pos (by omega)]
        · rw [if_neg h1] at hab
          by_cases h4 : y.toNat < x.toNat
          · rw [if_pos h4] at hab
            cases hab
          · rw [if_neg h4] at hab
            by_cases h2 : y.toNat < z.toNat
            · rw [if_pos (by omega)]
            · rw [if_neg h2] at hbc
              by_cases h3 : z.toNat < y.toNat
              · rw [if_pos h3] at hbc
                cases hbc
              · rw [if_neg h3] at hbc
                rw [if_neg (by omega), if_neg (by omega)]
                exact ih ys zs hab hbc

theorem strLe_total : ∀ a b : String, strLe a b = true ∨ strLe b a = true :=
  fun a b => strLeAux_total a.data b.data

theorem strLe_trans : ∀ a b c : String,
    strLe a b = true → strLe b c = true → strLe a c = true :=
  fun a b c => strLeAux_trans a.data b.data c.data

/-! ## value_counts -/

theorem valueCounts_keys (l : List String) :
    (valueCounts l).map (fun e => e.1) = l.dedup := by
  unfold valueCounts
  rw [List.map_map]
  exact List.map_id l.dedup

theorem valueCounts_nodup (l : List String) :
    ((valueCounts l).map (fun e => e.1)).Nodup := by
  rw [valueCounts_keys]
  exact l.nodup_dedup

theorem valueCounts_val (l : List String) :
    ∀ e ∈ valueCounts l, e.2 = l.count e.1 := by
  intro e he
  rcases List.mem_map.mp he with ⟨u, _, hu⟩
  rw [← hu]

theorem valueCounts_zero (l : List String) :
    ∀ k, k ∉ (valueCounts l).map (fun e => e.1) → l.count k = 0 := by
  intro k hk
  rw [valueCounts_keys] at hk
  exact List.count_eq_zero.mpr (fun h => hk (List.mem_dedup.mpr h))

theorem mem_valueCounts_keys (l : List String) :
    ∀ u ∈ l, u ∈ (valueCounts l).map (fun e => e.1) := by
  intro u hu
  rw [valueCounts_keys]
  exact List.mem_dedup.mpr hu

/-- C7: `create_contributor_leaderboard` returns exactly one row per distinct
user login seen in either collection; the `issues` and `prs` fields are the
per-user counts in each collection (0 when the user never appears there);
`total = issues + prs`; rows are sorted descending by `total`. -/
theorem C7_contributor_leaderboard (issues : List Issue) (prs : List PullReq) :
    (∀ u : String,
      (∃ r ∈ create_contributor_leaderboard issues prs, r.contributor = u) ↔
        (u ∈ issues.map (fun i => i.user) ∨ u ∈ prs.map (fun p => p.user))) ∧
    ((create_contributor_leaderboard issues prs).map (fun r => r.contributor)).Nodup ∧
    (∀ r ∈ create_contributor_leaderboard issues prs,
      r.issues = (issues.map (fun i => i.user)).count r.contributor ∧
      r.prs = (prs.map (fun p => p.user)).count r.contributor ∧
      r.total = r.issues + r.prs) ∧
    (create_contributor_leaderboard issues prs).Pairwise (fun a b => b.total ≤ a.total) := by
  obtain ⟨hvals, hnd, hfk, hsk, hsub⟩ :=
    mergeCounts_spec (fun u => (issues.map (fun i => i.user)).count u)
      (fun u => (prs.map (fun p => p.user)).count u)
      (valueCounts (issues.map (fun i => i.user)))
      (valueCounts (prs.map (fun p => p.user)))
      (valueCounts_nodup _) (valueCounts_nodup _) (valueCounts_val _) (valueCounts_val _)
      (valueCounts_zero _) (valueCounts_zero _)
  have hperm : (create_contributor_leaderboard issues prs).Perm
      ((mergeCounts (valueCounts (issues.map (fun i => i.user)))
        (valueCounts (prs.map (fun p => p.user)))).map
          (fun e => LRow.mk e.1 e.2.1 e.2.2 (e.2.1 + e.2.2))) := sortLe_perm _ _
  refine ⟨?_, ?_, ?_, ?_⟩
  · intro u
    constructor
    · rintro ⟨r, hr, hru⟩
      rcases List.mem_map.mp (hperm.mem_iff.mp hr) with ⟨e, he, hre⟩
      subst hre
      have hue : e.1 = u := hru
      have h3 := hsub (List.mem_map_of_mem (fun r => r.1) he)
      rcases List.mem_append.mp h3 with h4 | h4
      · left
        rw [valueCounts_keys] at h4
        exact hue ▸ List.mem_dedup.mp h4
      · right
        rw [valueCounts_keys] at h4
        exact hue ▸ List.mem_dedup.mp h4
    · intro hu
      rcases hu with hu | hu
      · rcases List.mem_map.mp (mem_valueCounts_keys _ u hu) with ⟨e, he, heu⟩
        rcases List.mem_map.mp (hfk e he) with ⟨me, hme, hmeu⟩
        refine ⟨LRow.mk me.1 me.2.1 me.2.2 (me.2.1 + me.2.2),
          hperm.mem_iff.mpr (List.mem_map_of_mem _ hme), ?_⟩
        show me.1 = u
        rw [hmeu, heu]
      · rcases List.mem_map.mp (mem_valueCounts_keys _ u hu) with ⟨e, he, heu⟩
        rcases List.mem_map.mp (hsk e he) with ⟨me, hme, hmeu⟩
        refine ⟨LRow.mk me.1 me.2.1 me.2.2 (me.2.1 + me.2.2),
          hperm.mem_iff.mpr (List.mem_map_of_mem _ hme), ?_⟩
        show me.1 = u
        rw [hmeu, heu]
  · rw [List.Perm.nodup_iff (hperm.map (fun r => r.contributor))]
    rw [List.map_map]
    exact hnd
  · intro r hr
    rcases List.mem_map.mp (hperm.mem_iff.mp hr) with ⟨e, he, hre⟩
    subst hre
    obtain ⟨h1, h2⟩ := hvals e he
    exact ⟨h1, h2, rfl⟩
  · have hpw := sortLe_pairwise (fun a b : LRow => decide (b.total ≤ a.total))
      (fun a b => by
        rcases Nat.le_total b.total a.total with h | h
        · exact Or.inl (decide_eq_true h)
        · exact Or.inr (decide_eq_true h))
      (fun a b c h1 h2 =>
        decide_eq_true (le_trans (of_decide_eq_true h2) (of_decide_eq_true h1)))
      ((mergeCounts (valueCounts (issues.map (fun i => i.user)))
        (valueCounts (prs.map (fun p => p.user)))).map
          (fun e => LRow.mk e.1 e.2.1 e.2.2 (e.2.1 + e.2.2)))
    have hpw2 : (create_contributor_leaderboard issues prs).Pairwise
        (fun a b => decide (b.total ≤ a.total) = true) := hpw
    exact hpw2.imp (fun h => of_decide_eq_true h)

/-- C7 witness: the spec scenario (issues by alice twice, PRs by alice once
and bob three times) run through the theorem at the alice row. -/
theorem C7_contributor_leaderboard_witness :
    ∃ r ∈ create_contributor_leaderboard
        [sampleIssue 1 "open" 0 none "alice", sampleIssue 2 "open" 0 none "alice"]
        [samplePR 3 "open" 0 none "alice" "" false, samplePR 4 "open" 0 none "bob" "" false,
         samplePR 5 "open" 0 none "bob" "" false, samplePR 6 "open" 0 none "bob" "" false],
      r.contributor = "alice" ∧ r.issues = 2 ∧ r.prs = 1 ∧ r.total = 3 := by
  obtain ⟨hmem, _, hcounts, _⟩ := C7_contributor_leaderboard
    [sampleIssue 1 "open" 0 none "alice", sampleIssue 2 "open" 0 none "alice"]
    [samplePR 3 "open" 0 none "alice" "" false, samplePR 4 "open" 0 none "bob" "" false,
     samplePR 5 "open" 0 none "bob" "" false, samplePR 6 "open" 0 none "bob" "" false]
  obtain ⟨r, hr, hru⟩ := (hmem "alice").mpr (by left; decide)
  obtain ⟨h1, h2, h3⟩ := hcounts r hr
  refine ⟨r, hr, hru, ?_, ?_, ?_⟩
  · rw [h1, hru]
    decide
  · rw [h2, hru]
    decide
  · rw [h3, h1, h2, hru]
    decide

/-! ## Metrics Engine -/

theorem resTimes_eq (issues : List Issue) :
    (issues.filter (fun i => i.state == "closed")).filterMap
      (fun i => i.closed_at.map (fun (c : Nat) => ((c : ℚ) - (i.created_at : ℚ)) / 86400)) =
    (qualifyingIssues issues).map specResolutionDays := by
  unfold qualifyingIssues
  induction issues with
  | nil => rfl
  | cons i is ih =>
    by_cases hs : i.state == "closed"
    · cases hc : i.closed_at with
      | none =>
        rw [List.filter_cons_of_pos (by simpa using hs), List.filterMap_cons,
          List.filter_cons_of_neg (by simp [hs, hc]), hc]
        simpa using ih
      | some c =>
        rw [List.filter_cons_of_pos (by simpa using hs), List.filterMap_cons,
          List.filter_cons_of_pos (by simp [hs, hc]), hc]
        simp only [Option.map_some, List.map_cons]
        rw [ih]
        simp [specResolutionDays, hc]
    · rw [List.filter_cons_of_neg (by simpa using hs),
        List.filter_cons_of_neg (by simp [hs])]
      exact ih

/-- C3: for every issue collection, `calculate_kpis` reports
`avg_issue_resolution_days` as the arithmetic mean of
`(closed_at − created_at)` in seconds over 86400, taken over exactly the
issues with `state == closed` and a present `closed_at`, and the sentinel 0
when no such issue exists. -/
theorem C3_avg_issue_resolution (issues : List Issue) (prs : List PullReq) :
    (calculate_kpis issues prs).avg_issue_resolution_days =
      if qualifyingIssues issues = [] then 0
      else ((qualifyingIssues issues).map specResolutionDays).sum /
        ((qualifyingIssues issues).length : ℚ) := by
  by_cases hq : qualifyingIssues issues = []
  · simp [calculate_kpis, resTimes_eq, hq]
  · have hne : ((qualifyingIssues issues).map specResolutionDays).isEmpty = false := by
      rcases List.exists_cons_of_ne_nil hq with ⟨a, as, ha⟩
      rw [ha]
      rfl
    simp [calculate_kpis, resTimes_eq, hq, hne]

/-! ## Period selection -/

/-- C4: the throughput series and the cycle-time series select their bucket
size by the same rule, and that rule is: daily when the day range is at most
7, weekly when it is at most 90, monthly otherwise. -/
theorem C4_same_period_rule (s e : Nat) :
    selectPeriodThroughput s e = selectPeriodCycleTime s e ∧
    selectPeriodThroughput s e = specPeriodRule s e := by
  refine ⟨rfl, ?_⟩
  unfold selectPeriodThroughput specPeriodRule
  by_cases h7 : (e - s) / 86400 ≤ 7
  · simp [h7]
  · by_cases h30 : (e - s) / 86400 ≤ 30
    · simp [h7, h30, (by omega : (e - s) / 86400 ≤ 90)]
    · by_cases h90 : (e - s) / 86400 ≤ 90 <;> simp [h7, h30, h90]

/-! ## Record Normalizer -/

/-- C1 counterexample: on an input whose single item is missing the required
field `number`, `create_dataframes` does not fail — it returns the
normalized tables, with the item present as a row and the missing field
reading as the missing marker, contradicting the claimed fail-fast error. -/
theorem C1_counterexample :
    (create_dataframes [itemNoNumber] []).1.rows = [itemNoNumber] ∧
    lookupKey itemNoNumber "number" = none := ⟨rfl, rfl⟩

/-- C1 (amended): `create_dataframes` performs no validation and has no
failure path: for every input, including items missing required fields, it
returns the two tables with columns the union of the item keys and the items
unchanged as rows; an absent field reads as the missing marker `none`, never
an error. -/
theorem C1_no_validation (issues prs : List RawItem) :
    (create_dataframes issues prs).1.rows = issues ∧
    (create_dataframes issues prs).2.rows = prs ∧
    (create_dataframes issues prs).1.cols = unionKeys issues ∧
    (create_dataframes issues prs).2.cols = unionKeys prs ∧
    (∀ it : RawItem, ∀ k : String,
      lookupKey it k = none ↔ k ∉ it.map (fun e => e.1)) := by
  refine ⟨rfl, rfl, rfl, rfl, ?_⟩
  intro it k
  unfold lookupKey
  rw [Option.map_eq_none', List.find?_eq_none]
  constructor
  · intro h hk
    rcases List.mem_map.mp hk with ⟨e, he, hek⟩
    exact h e he (by simp [hek])
  · intro h e he
    simp only [beq_iff_eq]
    intro hek
    exact h (hek ▸ List.mem_map_of_mem (fun e => e.1) he)

/-- C9: feeding the Record Normalizer's output tables directly back through
the normalizer (`pd.DataFrame` applied to each DataFrame, which copies the
frame with identical columns and rows) reproduces the first pass's output
exactly: normalize-of-normalized is a no-op. -/
theorem C9_normalizer_idempotent (issues prs : List RawItem) :
    renormalize (create_dataframes issues prs) = create_dataframes issues prs := rfl

/-! ## Cross-Reference Extractor -/

/-- C2 counterexample: on PR number 5 with body
`"Fixes #12 and relates to #7, also see #12"` the emitted `Linked Issues`
string is not `"7,12"` — the code joins with `', '` (comma and space). -/
theorem C2_counterexample :
    ¬ ((extract_pr_issue_linkage [linkagePR]).map (fun r => r.linked_issues) = ["7,12"]) := by
  decide

/-- C2 (amended): for the PR collection containing one PR with number 5 and
body `"Fixes #12 and relates to #7, also see #12"`, linkage extraction
returns exactly one row with `pr_number = 5` whose `linked_issues` field is
`"7, 12"`: referenced numbers deduplicated as a set and rendered sorted
numerically ascending (7 before 12 despite 12 appearing first), joined with
a comma and a space. -/
theorem C2_linkage_row :
    extract_pr_issue_linkage [linkagePR] = [⟨5, "p", "7, 12"⟩] := by
  decide

/-! ## Issue aging -/

theorem count_map_eq_countP (f : α → String) (l : List α) (b : String) :
    (l.map f).count b = l.countP (fun x => f x == b) := by
  induction l with
  | nil => rfl
  | cons x xs ih => rw [List.map_cons, List.count_cons, List.countP_cons, ih]

theorem eq_of_perm_sorted_strict (key : α → Nat) :
    ∀ l1 l2 : List α, l1.Perm l2 → l1.Pairwise (fun a b => key a < key b) →
      l2.Pairwise (fun a b => key a < key b) → l1 = l2 := by
  intro l1
  induction l1 with
  | nil =>
    intro l2 hp _ _
    exact (hp.symm.eq_nil).symm
  | cons x xs ih =>
    intro l2 hp hs1 hs2
    cases l2 with
    | nil => exact hp.eq_nil
    | cons y ys =>
      rcases List.pairwise_cons.mp hs1 with ⟨hx1, hxs1⟩
      rcases List.pairwise_cons.mp hs2 with ⟨hy2, hys2⟩
      have hxy : x = y := by
        by_contra hne
        have hx2 : x ∈ y :: ys := hp.mem_iff.mp (List.mem_cons_self x xs)
        have hy1 : y ∈ x :: xs := hp.mem_iff.mpr (List.mem_cons_self y ys)
        have hxys : x ∈ ys := by
          rcases List.mem_cons.mp hx2 with h | h
          · exact absurd h hne
          · exact h
        have hyxs : y ∈ xs := by
          rcases List.mem_cons.mp hy1 with h | h
          · exact absurd h.symm hne
          · exact h
        have h1 := hx1 y hyxs
        have h2 := hy2 x hxys
        omega
      subst hxy
      rw [ih ys hp.cons_inv hxs1 hys2]

theorem ageBucket_mem_allBuckets (a : ℚ) : ageBucket a ∈ allBuckets := by
  unfold ageBucket allBuckets
  split
  · simp
  · split <;> simp

theorem bucketOrder_inj_on : ∀ x ∈ allBuckets, ∀ y ∈ allBuckets, x ≠ y →
    bucketOrder x ≠ bucketOrder y := by decide

/-- The non-empty branch of the aging pipeline, for any bucket-string list
`bl` whose members are among the three buckets: `value_counts`, append the
missing buckets with count 0, and sort by bucket order, equals the canonical
three-row table keyed in display order with the multiplicities of `bl`. -/
theorem agingTable_sorted (bl : List String) (hsub : ∀ b ∈ bl, b ∈ allBuckets) :
    sortLe (fun a b => decide (bucketOrder a.1 ≤ bucketOrder b.1))
      (valueCounts bl ++
        (allBuckets.filter (fun s => !((valueCounts bl).map (fun e => e.1)).contains s)).map
          (fun s => (s, 0))) =
    allBuckets.map (fun b => (b, bl.count b)) := by
  have hkeys : (valueCounts bl).map (fun e => e.1) = bl.dedup := valueCounts_keys bl
  have hcontains : ∀ s : String,
      (((valueCounts bl).map (fun e => e.1)).contains s = false) ↔ s ∉ bl.dedup := by
    intro s
    rw [hkeys]
    simp [List.contains, List.elem_eq_mem]
  -- the appended rows carry the (zero) multiplicities of their keys
  have hmiss : (allBuckets.filter
        (fun s => !((valueCounts bl).map (fun e => e.1)).contains s)).map (fun s => (s, 0)) =
      (allBuckets.filter
        (fun s => !((valueCounts bl).map (fun e => e.1)).contains s)).map
          (fun b => (b, bl.count b)) := by
    apply List.map_congr_left
    intro s hs
    have h1 := (List.mem_filter.mp hs).2
    have h2 : s ∉ bl := by
      intro hmem
      have h3 : s ∈ bl.dedup := List.mem_dedup.mpr hmem
      rw [Bool.not_eq_true'] at h1
      exact absurd ((hcontains s).mp h1) (fun hk => hk h3)
    rw [List.count_eq_zero.mpr h2]
  -- the whole pre-sort list is the multiplicity table of its key list
  have hall : valueCounts bl ++
      (allBuckets.filter (fun s => !((valueCounts bl).map (fun e => e.1)).contains s)).map
        (fun s => (s, 0)) =
      (bl.dedup ++ allBuckets.filter
        (fun s => !((valueCounts bl).map (fun e => e.1)).contains s)).map
          (fun b => (b, bl.count b)) := by
    rw [hmiss, List.map_append]
    rfl
  -- the key list is a permutation of the three buckets
  have hkperm : (bl.dedup ++ allBuckets.filter
      (fun s => !((valueCounts bl).map (fun e => e.1)).contains s)).Perm allBuckets := by
    apply (List.perm_ext_iff_of_nodup ?_ ?_).mpr
    · intro a
      constructor
      · intro ha
        rcases List.mem_append.mp ha with h | h
        · exact hsub a (List.mem_dedup.mp h)
        · exact (List.mem_filter.mp h).1
      · intro ha
        by_cases hd : a ∈ bl.dedup
        · exact List.mem_append.mpr (Or.inl hd)
        · refine List.mem_append.mpr (Or.inr (List.mem_filter.mpr ⟨ha, ?_⟩))
          rw [Bool.not_eq_true']
          exact (hcontains a).mpr hd
    · refine List.Nodup.append bl.nodup_dedup ((by decide : allBuckets.Nodup).filter _) ?_
      intro a ha hf
      have h1 := (List.mem_filter.mp hf).2
      rw [Bool.not_eq_true'] at h1
      exact (hcontains a).mp h1 ha
    · exact by decide
  -- both sides are strictly sorted multiplicity tables over permuted keys
  have hsperm : (sortLe (fun a b => decide (bucketOrder a.1 ≤ bucketOrder b.1))
      (valueCounts bl ++
        (allBuckets.filter
          (fun s => !((valueCounts bl).map (fun e => e.1)).contains s)).map
            (fun s => (s, 0)))).Perm (allBuckets.map (fun b => (b, bl.count b))) := by
    refine (sortLe_perm _ _).trans ?_
    rw [hall]
    exact hkperm.map _
  apply eq_of_perm_sorted_strict (fun e => bucketOrder e.1)
  · exact hsperm
  · have hnd : ((sortLe (fun a b => decide (bucketOrder a.1 ≤ bucketOrder b.1))
        (valueCounts bl ++
          (allBuckets.filter
            (fun s => !((valueCounts bl).map (fun e => e.1)).contains s)).map
              (fun s => (s, 0)))).map (fun e => e.1)).Nodup := by
      rw [List.Perm.nodup_iff (hsperm.map (fun e => e.1))]
      rw [List.map_map]
      have hid : (allBuckets.map ((fun e : String × Nat => e.1) ∘
          (fun b => (b, bl.count b)))) = allBuckets := List.map_id' _ -- composition is identity
      rw [hid]
      decide
    have hsubk : ∀ e ∈ sortLe (fun a b => decide (bucketOrder a.1 ≤ bucketOrder b.1))
        (valueCounts bl ++
          (allBuckets.filter
            (fun s => !((valueCounts bl).map (fun e => e.1)).contains s)).map
              (fun s => (s, 0))), e.1 ∈ allBuckets := by
      intro e he
      have := hsperm.mem_iff.mp he
      rcases List.mem_map.mp this with ⟨b, hb, hbe⟩
      rw [← hbe]
      exact hb
    have hpw := sortLe_pairwise (fun a b : String × Nat =>
        decide (bucketOrder a.1 ≤ bucketOrder b.1))
      (fun a b => by
        rcases Nat.le_total (bucketOrder a.1) (bucketOrder b.1) with h | h
        · exact Or.inl (decide_eq_true h)
        · exact Or.inr (decide_eq_true h))
      (fun a b c h1 h2 =>
        decide_eq_true (le_trans (of_decide_eq_true h1) (of_decide_eq_true h2)))
      (valueCounts bl ++
        (allBuckets.filter
          (fun s => !((valueCounts bl).map (fun e => e.1)).contains s)).map
            (fun s => (s, 0)))
    have hpwne : (sortLe (fun a b => decide (bucketOrder a.1 ≤ bucketOrder b.1))
        (valueCounts bl ++
          (allBuckets.filter
            (fun s => !((valueCounts bl).map (fun e => e.1)).contains s)).map
              (fun s => (s, 0)))).Pairwise (fun a b => a.1 ≠ b.1) :=
      List.pairwise_map.mp hnd
    refine (hpw.and hpwne).imp_of_mem ?_
    intro a b ha hb hab
    rcases hab with ⟨h1, h2⟩
    have h3 := of_decide_eq_true h1
    have h4 := bucketOrder_inj_on a.1 (hsubk a ha) b.1 (hsubk b hb) h2
    omega
  · have h01 : bucketOrder "0-7 days" < bucketOrder "7-30 days" := by decide
    have h02 : bucketOrder "0-7 days" < bucketOrder "30+ days" := by decide
    have h12 : bucketOrder "7-30 days" < bucketOrder "30+ days" := by decide
    refine List.Pairwise.cons ?_ (List.Pairwise.cons ?_ (List.pairwise_singleton _ _))
    · intro e he
      rcases List.mem_cons.mp he with h | h
      · rw [h]
        exact h01
      · rcases List.mem_singleton.mp h with h
        rw [h]
        exact h02
    · intro e he
      rcases List.mem_singleton.mp he with h
      rw [h]
      exact h12

/-- C6 counterexample: on an issue collection with no open issue (here the
empty one) the aging table is empty — the three bucket rows are not always
present in the output. -/
theorem C6_counterexample :
    create_issue_aging_data [] 0 = [] ∧
    "0-7 days" ∉ (create_issue_aging_data [] 0).map (fun r => r.Age_Bucket) :=
  ⟨rfl, by decide⟩

set_option maxHeartbeats 1000000 in
/-- C6 (amended): the aging table classifies each open issue by elapsed age
since creation (5 days old falls in "0-7 days", 20 in "7-30 days", 40 in
"30+ days"), and whenever at least one open issue exists all three bucket
rows are present, in display order, with count 0 for a bucket containing no
issue; when there is no open issue the code returns an empty table (its
early-return branches) instead of three zero rows. -/
theorem C6_issue_aging (issues : List Issue) (cur : Nat) :
    (ageBucket 5 = "0-7 days" ∧ ageBucket 20 = "7-30 days" ∧ ageBucket 40 = "30+ days") ∧
    (issues.filter (fun i => i.state == "open") = [] →
      create_issue_aging_data issues cur = []) ∧
    (issues.filter (fun i => i.state == "open") ≠ [] →
      create_issue_aging_data issues cur = allBuckets.map (fun b =>
        ARow.mk b ((issues.filter (fun i => i.state == "open")).countP
          (fun i => ageBucket (ageDays cur i.created_at) == b)))) := by
  refine ⟨⟨by norm_num [ageBucket], by norm_num [ageBucket], by norm_num [ageBucket]⟩, ?_, ?_⟩
  · intro h
    simp [create_issue_aging_data, h]
  · intro hne
    have hEmpty : (issues.filter (fun i => i.state == "open")).isEmpty = false := by
      cases hl : issues.filter (fun i => i.state == "open") with
      | nil => exact absurd hl hne
      | cons a as => rfl
    unfold create_issue_aging_data
    simp only [hEmpty, Bool.false_eq_true, if_false]
    rw [agingTable_sorted]
    · rw [List.map_map]
      apply List.map_congr_left
      intro b hb
      exact congrArg (ARow.mk b)
        (count_map_eq_countP (fun i => ageBucket (ageDays cur i.created_at))
          (issues.filter (fun i => i.state == "open")) b)
    · intro b hb
      rcases List.mem_map.mp hb with ⟨i, _, hib⟩
      rw [← hib]
      exact ageBucket_mem_allBuckets _

/-- C6 witness: one open issue aged 20 days yields the three bucket rows in
order with counts 0, 1, 0. -/
theorem C6_issue_aging_witness :
    [sampleIssue 1 "open" 0 none "a"].filter (fun i => i.state == "open") ≠ [] ∧
    create_issue_aging_data [sampleIssue 1 "open" 0 none "a"] (86400 * 20) =
      [⟨"0-7 days", 0⟩, ⟨"7-30 days", 1⟩, ⟨"30+ days", 0⟩] := by
  refine ⟨by decide, ?_⟩
  rw [(C6_issue_aging [sampleIssue 1 "open" 0 none "a"] (86400 * 20)).2.2 (by decide)]
  have hfil : [sampleIssue 1 "open" 0 none "a"].filter (fun i => i.state == "open") =
      [sampleIssue 1 "open" 0 none "a"] := by decide
  have hb : ageBucket (ageDays (86400 * 20) (sampleIssue 1 "open" 0 none "a").created_at) =
      "7-30 days" := by
    norm_num [ageBucket, ageDays, sampleIssue]
  rw [hfil]
  simp only [allBuckets, List.map_cons, List.map_nil, List.countP_cons, List.countP_nil, hb]
  decide

/-! ## Calendar correctness -/

theorem daysInYear_ge (y : Nat) : 365 ≤ daysInYear y := by
  unfold daysInYear
  split <;> omega

theorem daysFromTo_eq (a b : Nat) :
    daysFromTo a b = if a < b then daysInYear a + daysFromTo (a + 1) b else 0 := by
  unfold daysFromTo
  by_cases h : a < b
  · rw [if_pos h]
    have hb : b - a = (b - (a + 1)) + 1 := by omega
    rw [hb]
    show (if a < b then daysInYear a + daysFromToAux (b - (a + 1)) (a + 1) b else 0) = _
    rw [if_pos h]
  · rw [if_neg h]
    have hb : b - a = 0 := by omega
    rw [hb]
    rfl

theorem yearSplitAux_spec : ∀ fuel y n, n < fuel * 365 →
    daysFromTo y (yearSplitAux fuel y n).1 + (yearSplitAux fuel y n).2 = n ∧
    (yearSplitAux fuel y n).2 < daysInYear (yearSplitAux fuel y n).1 ∧
    y ≤ (yearSplitAux fuel y n).1 := by
  intro fuel
  induction fuel with
  | zero => intro y n h; omega
  | succ f ih =>
    intro y n h
    by_cases hn : n < daysInYear y
    · simp only [yearSplitAux, if_pos hn]
      refine ⟨?_, hn, Nat.le_refl y⟩
      rw [daysFromTo_eq, if_neg (Nat.lt_irrefl y)]
      omega
    · simp only [yearSplitAux, if_neg hn]
      have h365 := daysInYear_ge y
      obtain ⟨ih1, ih2, ih3⟩ := ih (y + 1) (n - daysInYear y) (by omega)
      refine ⟨?_, ih2, by omega⟩
      rw [daysFromTo_eq, if_pos (by omega : y < (yearSplitAux f (y + 1) (n - daysInYear y)).1)]
      omega

set_option maxRecDepth 4000 in
theorem splitMonths_spec_leap : ∀ n, n < 366 →
    1 ≤ (splitMonths (monthLengths true) 1 n).1 ∧
    (splitMonths (monthLengths true) 1 n).1 ≤ 12 ∧
    1 ≤ (splitMonths (monthLengths true) 1 n).2 ∧
    (splitMonths (monthLengths true) 1 n).2 ≤ 31 ∧
    ((monthLengths true).take ((splitMonths (monthLengths true) 1 n).1 - 1)).sum +
      ((splitMonths (monthLengths true) 1 n).2 - 1) = n := by decide

set_option maxRecDepth 4000 in
theorem splitMonths_spec_common : ∀ n, n < 365 →
    1 ≤ (splitMonths (monthLengths false) 1 n).1 ∧
    (splitMonths (monthLengths false) 1 n).1 ≤ 12 ∧
    1 ≤ (splitMonths (monthLengths false) 1 n).2 ∧
    (splitMonths (monthLengths false) 1 n).2 ≤ 31 ∧
    ((monthLengths false).take ((splitMonths (monthLengths false) 1 n).1 - 1)).sum +
      ((splitMonths (monthLengths false) 1 n).2 - 1) = n := by decide

theorem ymdOfDay_spec (d : Nat) :
    dayOfYMD (ymdOfDay d).1 (ymdOfDay d).2.1 (ymdOfDay d).2.2 = d ∧
    1 ≤ (ymdOfDay d).2.1 ∧ (ymdOfDay d).2.1 ≤ 12 ∧
    1 ≤ (ymdOfDay d).2.2 ∧ (ymdOfDay d).2.2 ≤ 31 ∧ 1970 ≤ (ymdOfDay d).1 := by
  obtain ⟨h1, h2, h3⟩ := yearSplitAux_spec (d + 1) 1970 d (by omega)
  have hpq : yearSplit 1970 d = yearSplitAux (d + 1) 1970 d := rfl
  rw [← hpq] at h1 h2 h3
  cases hleap : isLeap (yearSplit 1970 d).1 with
  | true =>
    have h4 : daysInYear (yearSplit 1970 d).1 = 366 := by
      unfold daysInYear
      rw [hleap]
      rfl
    have hb : (yearSplit 1970 d).2 < 366 := by omega
    obtain ⟨s1, s2, s3, s4, s5⟩ := splitMonths_spec_leap (yearSplit 1970 d).2 hb
    have hym0 : ymdOfDay d =
        ((yearSplit 1970 d).1,
         (splitMonths (monthLengths (isLeap (yearSplit 1970 d).1)) 1 (yearSplit 1970 d).2).1,
         (splitMonths (monthLengths (isLeap (yearSplit 1970 d).1)) 1 (yearSplit 1970 d).2).2) :=
      rfl
    rw [hleap] at hym0
    rw [hym0]
    dsimp only
    unfold dayOfYMD monthsBefore
    rw [hleap]
    exact ⟨by omega, s1, s2, s3, s4, h3⟩
  | false =>
    have h4 : daysInYear (yearSplit 1970 d).1 = 365 := by
      unfold daysInYear
      rw [hleap]
      rfl
    have hb : (yearSplit 1970 d).2 < 365 := by omega
    obtain ⟨s1, s2, s3, s4, s5⟩ := splitMonths_spec_common (yearSplit 1970 d).2 hb
    have hym0 : ymdOfDay d =
        ((yearSplit 1970 d).1,
         (splitMonths (monthLengths (isLeap (yearSplit 1970 d).1)) 1 (yearSplit 1970 d).2).1,
         (splitMonths (monthLengths (isLeap (yearSplit 1970 d).1)) 1 (yearSplit 1970 d).2).2) :=
      rfl
    rw [hleap] at hym0
    rw [hym0]
    dsimp only
    unfold dayOfYMD monthsBefore
    rw [hleap]
    exact ⟨by omega, s1, s2, s3, s4, h3⟩

theorem ymdOfDay_inj (d1 d2 : Nat) (h : ymdOfDay d1 = ymdOfDay d2) : d1 = d2 := by
  have h1 := (ymdOfDay_spec d1).1
  have h2 := (ymdOfDay_spec d2).1
  rw [h] at h1
  rw [h2] at h1
  exact h1.symm

/-! ## Decimal rendering correctness -/

theorem digitChar_toNat : ∀ k, k < 10 → (digitChar k).toNat = 48 + k := by decide

theorem natDigitsAux_inv : ∀ n fuel, n < fuel → natDigitsAux fuel n = natDigits n := by
  intro n
  induction n using Nat.strong_induction_on with
  | _ n ih =>
    intro fuel hf
    cases fuel with
    | zero => omega
    | succ f =>
      by_cases h10 : n < 10
      · show (if n < 10 then _ else _) = natDigits n
        rw [if_pos h10]
        unfold natDigits
        show _ = (if n < 10 then _ else _)
        rw [if_pos h10]
      · have hd : n / 10 < n := Nat.div_lt_self (by omega) (by omega)
        show (if n < 10 then [digitChar n]
          else natDigitsAux f (n / 10) ++ [digitChar (n % 10)]) = natDigits n
        rw [if_neg h10]
        unfold natDigits
        show _ = (if n < 10 then [digitChar n]
          else natDigitsAux n (n / 10) ++ [digitChar (n % 10)])
        rw [if_neg h10, ih (n / 10) hd f (by omega), ih (n / 10) hd n (by omega)]

theorem natDigits_eq (n : Nat) : natDigits n =
    if n < 10 then [digitChar n] else natDigits (n / 10) ++ [digitChar (n % 10)] := by
  by_cases h10 : n < 10
  · rw [if_pos h10]
    show (if n < 10 then _ else _) = _
    rw [if_pos h10]
  · rw [if_neg h10]
    have hd : n / 10 < n := Nat.div_lt_self (by omega) (by omega)
    show (if n < 10 then [digitChar n]
      else natDigitsAux n (n / 10) ++ [digitChar (n % 10)]) = _
    rw [if_neg h10, natDigitsAux_inv (n / 10) n hd]

theorem natDigits_range : ∀ n, ∀ c ∈ natDigits n, 48 ≤ c.toNat ∧ c.toNat ≤ 57 := by
  intro n
  induction n using Nat.strong_induction_on with
  | _ n ih =>
    intro c hc
    rw [natDigits_eq] at hc
    by_cases h10 : n < 10
    · rw [if_pos h10] at hc
      have hcd := List.mem_singleton.mp hc
      rw [hcd, digitChar_toNat n h10]
      omega
    · rw [if_neg h10] at hc
      rcases List.mem_append.mp hc with h | h
      · exact ih (n / 10) (Nat.div_lt_self (by omega) (by omega)) c h
      · have hcd := List.mem_singleton.mp h
        rw [hcd, digitChar_toNat (n % 10) (by omega)]
        omega

theorem unDigits_append (l : List Char) (c : Char) :
    unDigits (l ++ [c]) = 10 * unDigits l + (c.toNat - 48) := by
  unfold unDigits
  rw [List.foldl_append]
  rfl

theorem unDigits_natDigits : ∀ n, unDigits (natDigits n) = n := by
  intro n
  induction n using Nat.strong_induction_on with
  | _ n ih =>
    rw [natDigits_eq]
    by_cases h10 : n < 10
    · rw [if_pos h10]
      show unDigits ([] ++ [digitChar n]) = n
      rw [unDigits_append, digitChar_toNat n h10]
      show 10 * 0 + (48 + n - 48) = n
      omega
    · rw [if_neg h10, unDigits_append,
        ih (n / 10) (Nat.div_lt_self (by omega) (by omega)),
        digitChar_toNat (n % 10) (by omega)]
      omega

theorem natDigits_inj (a b : Nat) (h : natDigits a = natDigits b) : a = b := by
  have ha := unDigits_natDigits a
  rw [h, unDigits_natDigits] at ha
  exact ha.symm

theorem twoDigits_inj (a b : Nat) (ha : a < 100) (hb : b < 100)
    (h : twoDigits a = twoDigits b) : a = b := by
  simp only [twoDigits, List.cons.injEq, and_true] at h
  obtain ⟨h1, h2⟩ := h
  have e1 := congrArg Char.toNat h1
  have e2 := congrArg Char.toNat h2
  rw [digitChar_toNat _ (by omega), digitChar_toNat _ (by omega)] at e1
  rw [digitChar_toNat _ (by omega), digitChar_toNat _ (by omega)] at e2
  omega

theorem fmtYMD_inj (y1 m1 d1 y2 m2 d2 : Nat)
    (hm1 : m1 < 100) (hd1 : d1 < 100) (hm2 : m2 < 100) (hd2 : d2 < 100)
    (h : fmtYMD y1 m1 d1 = fmtYMD y2 m2 d2) : y1 = y2 ∧ m1 = m2 ∧ d1 = d2 := by
  have hdata : natDigits y1 ++
      Char.ofNat 45 :: (twoDigits m1 ++ Char.ofNat 45 :: twoDigits d1) =
      natDigits y2 ++
      Char.ofNat 45 :: (twoDigits m2 ++ Char.ofNat 45 :: twoDigits d2) :=
    congrArg String.data h
  obtain ⟨hy, hrest⟩ := List.append_inj' hdata (by simp [twoDigits])
  simp only [List.cons.injEq, true_and] at hrest
  obtain ⟨hm, hd⟩ := List.append_inj' hrest (by simp [twoDigits])
  simp only [List.cons.injEq, true_and] at hd
  exact ⟨natDigits_inj y1 y2 hy, twoDigits_inj m1 m2 hm1 hm2 hm,
    twoDigits_inj d1 d2 hd1 hd2 hd⟩

theorem fmtDay_inj (d1 d2 : Nat) (h : fmtDay d1 = fmtDay d2) : d1 = d2 := by
  have hs1 := ymdOfDay_spec d1
  have hs2 := ymdOfDay_spec d2
  obtain ⟨hy, hm, hd⟩ := fmtYMD_inj (ymdOfDay d1).1 (ymdOfDay d1).2.1 (ymdOfDay d1).2.2
    (ymdOfDay d2).1 (ymdOfDay d2).2.1 (ymdOfDay d2).2.2
    (by omega) (by omega) (by omega) (by omega) h
  apply ymdOfDay_inj d1 d2
  have h21 : (ymdOfDay d1).2 = (ymdOfDay d2).2 := Prod.ext hm hd
  calc ymdOfDay d1 = ((ymdOfDay d1).1, (ymdOfDay d1).2) := rfl
    _ = ((ymdOfDay d2).1, (ymdOfDay d2).2) := by rw [hy, h21]
    _ = ymdOfDay d2 := rfl

/-! ## Grouper bins -/

theorem foldl_min_le_init (l : List Nat) : ∀ a, l.foldl Nat.min a ≤ a := by
  induction l with
  | nil => intro a; exact Nat.le_refl a
  | cons x xs ih =>
    intro a
    calc xs.foldl Nat.min (Nat.min a x) ≤ Nat.min a x := ih (Nat.min a x)
      _ ≤ a := Nat.min_le_left a x

theorem foldl_min_le_mem (l : List Nat) : ∀ a x, x ∈ l → l.foldl Nat.min a ≤ x := by
  induction l with
  | nil => intro a x hx; cases hx
  | cons y ys ih =>
    intro a x hx
    rcases List.mem_cons.mp hx with h | h
    · subst h
      calc ys.foldl Nat.min (Nat.min a x) ≤ Nat.min a x := foldl_min_le_init ys _
        _ ≤ x := Nat.min_le_right a x
    · exact ih (Nat.min a y) x h

theorem minT_le (ts : List Nat) : ∀ t ∈ ts, minT ts ≤ t := by
  cases ts with
  | nil => intro t ht; cases ht
  | cons x xs =>
    intro t ht
    rcases List.mem_cons.mp ht with h | h
    · subst h
      exact foldl_min_le_init xs t
    · exact foldl_min_le_mem xs x t h

theorem init_le_foldl_max (l : List Nat) : ∀ a, a ≤ l.foldl Nat.max a := by
  induction l with
  | nil => intro a; exact Nat.le_refl a
  | cons x xs ih =>
    intro a
    calc a ≤ Nat.max a x := Nat.le_max_left a x
      _ ≤ xs.foldl Nat.max (Nat.max a x) := ih (Nat.max a x)

theorem mem_le_foldl_max (l : List Nat) : ∀ a x, x ∈ l → x ≤ l.foldl Nat.max a := by
  induction l with
  | nil => intro a x hx; cases hx
  | cons y ys ih =>
    intro a x hx
    rcases List.mem_cons.mp hx with h | h
    · subst h
      calc x ≤ Nat.max a x := Nat.le_max_right a x
        _ ≤ ys.foldl Nat.max (Nat.max a x) := init_le_foldl_max ys _
    · exact ih (Nat.max a y) x h

theorem le_maxT (ts : List Nat) : ∀ t ∈ ts, t ≤ maxT ts := by
  cases ts with
  | nil => intro t ht; cases ht
  | cons x xs =>
    intro t ht
    rcases List.mem_cons.mp ht with h | h
    · subst h
      exact init_le_foldl_max xs t
    · exact mem_le_foldl_max xs x t h

theorem binsOf_nodup (f : Freq) (ts : List Nat) : (binsOf f ts).Nodup := by
  cases ts with
  | nil => exact List.nodup_nil
  | cons x xs => exact List.nodup_dedup _

theorem label_mem_binsOf (f : Freq) (ts : List Nat) (t : Nat) (ht : t ∈ ts) :
    labelOf f (dayIndex t) ∈ binsOf f ts := by
  cases ts with
  | nil => cases ht
  | cons x xs =>
    show labelOf f (dayIndex t) ∈
      ((List.range (dayIndex (maxT (x :: xs)) + 1 - dayIndex (minT (x :: xs)))).map
        (fun k => labelOf f (dayIndex (minT (x :: xs)) + k))).dedup
    rw [List.mem_dedup]
    apply List.mem_map.mpr
    have hmin : minT (x :: xs) ≤ t := minT_le _ t ht
    have hmax : t ≤ maxT (x :: xs) := le_maxT _ t ht
    have hlo : dayIndex (minT (x :: xs)) ≤ dayIndex t := Nat.div_le_div_right hmin
    have hhi : dayIndex t ≤ dayIndex (maxT (x :: xs)) := Nat.div_le_div_right hmax
    refine ⟨dayIndex t - dayIndex (minT (x :: xs)), List.mem_range.mpr (by omega), ?_⟩
    congr 1
    omega

theorem groupCounts_keys (f : Freq) (ts : List Nat) :
    (groupCounts f ts).map (fun e => e.1) = binsOf f ts := by
  unfold groupCounts
  rw [List.map_map]
  exact List.map_id' _

theorem groupCounts_val (f : Freq) (ts : List Nat) :
    ∀ e ∈ groupCounts f ts, e.2 = ts.countP (fun t => labelOf f (dayIndex t) == e.1) := by
  intro e he
  rcases List.mem_map.mp he with ⟨b, _, hbe⟩
  rw [← hbe]

theorem countP_congr_fn (l : List α) (p q : α → Bool) (h : ∀ a ∈ l, p a = q a) :
    l.countP p = l.countP q := by
  induction l with
  | nil => rfl
  | cons x xs ih =>
    rw [List.countP_cons, List.countP_cons, h x (List.mem_cons_self x xs),
      ih (fun a ha => h a (List.mem_cons_of_mem x ha))]

theorem fmtDay_injective : Function.Injective fmtDay := fun a b h => fmtDay_inj a b h

theorem mappedGroup_keys (f : Freq) (ts : List Nat) :
    (((groupCounts f ts).map (fun bc => (fmtDay bc.1, bc.2))).map (fun e => e.1)) =
      (binsOf f ts).map fmtDay := by
  rw [List.map_map, ← groupCounts_keys f ts, List.map_map]
  rfl

theorem mappedGroup_nodup (f : Freq) (ts : List Nat) :
    ((((groupCounts f ts).map (fun bc => (fmtDay bc.1, bc.2))).map (fun e => e.1))).Nodup := by
  rw [mappedGroup_keys]
  exact (binsOf_nodup f ts).map fmtDay_injective

theorem mappedGroup_val (f : Freq) (ts : List Nat) :
    ∀ e ∈ (groupCounts f ts).map (fun bc => (fmtDay bc.1, bc.2)),
      e.2 = ts.countP (fun t => fmtDay (labelOf f (dayIndex t)) == e.1) := by
  intro e he
  rcases List.mem_map.mp he with ⟨bc, hbc, hbe⟩
  rw [← hbe]
  show bc.2 = ts.countP (fun t => fmtDay (labelOf f (dayIndex t)) == fmtDay bc.1)
  rw [groupCounts_val f ts bc hbc]
  apply countP_congr_fn
  intro t _
  by_cases hl : labelOf f (dayIndex t) = bc.1
  · rw [hl]
    simp
  · have hne : fmtDay (labelOf f (dayIndex t)) ≠ fmtDay bc.1 :=
      fun hcon => hl (fmtDay_inj _ _ hcon)
    simp [hl, hne]

theorem mappedGroup_zero (f : Freq) (ts : List Nat) :
    ∀ k, k ∉ ((groupCounts f ts).map (fun bc => (fmtDay bc.1, bc.2))).map (fun e => e.1) →
      ts.countP (fun t => fmtDay (labelOf f (dayIndex t)) == k) = 0 := by
  intro k hk
  rw [mappedGroup_keys] at hk
  rw [List.countP_eq_zero]
  intro t ht hcon
  apply hk
  have hke : fmtDay (labelOf f (dayIndex t)) = k := by
    have := of_decide_eq_true (by simpa using hcon)
    exact this
  rw [← hke]
  exact List.mem_map_of_mem fmtDay (label_mem_binsOf f ts t ht)

theorem mappedGroup_complete (f : Freq) (ts : List Nat) :
    ∀ t ∈ ts, fmtDay (labelOf f (dayIndex t)) ∈
      ((groupCounts f ts).map (fun bc => (fmtDay bc.1, bc.2))).map (fun e => e.1) := by
  intro t ht
  rw [mappedGroup_keys]
  exact List.mem_map_of_mem fmtDay (label_mem_binsOf f ts t ht)

set_option maxHeartbeats 1600000 in
/-- C5: throughput counts closed issues with `closed_at` inside `[s, e]` and
merged PRs with `merged_at` inside `[s, e]`; each series is grouped by its
time bucket (every row's two counters are exactly the number of events of
each kind in that row's bucket), the two groupings are outer-merged (every
event's bucket appears as a row, and a bucket with only one kind of event
carries the correct zero for the other kind), and the rows are ordered by
the `Period` key ascending. -/
theorem C5_throughput (issues : List Issue) (prs : List PullReq) (s e : Nat) :
    (∀ r ∈ create_throughput_data issues prs s e,
      r.Closed_Issues = (closedTimes issues s e).countP
          (fun t => bucketKey (selectPeriodThroughput s e) t == r.Period) ∧
      r.Merged_PRs = (mergedTimes prs s e).countP
          (fun t => bucketKey (selectPeriodThroughput s e) t == r.Period)) ∧
    (∀ t ∈ closedTimes issues s e, ∃ r ∈ create_throughput_data issues prs s e,
      r.Period = bucketKey (selectPeriodThroughput s e) t) ∧
    (∀ t ∈ mergedTimes prs s e, ∃ r ∈ create_throughput_data issues prs s e,
      r.Period = bucketKey (selectPeriodThroughput s e) t) ∧
    (create_throughput_data issues prs s e).Pairwise
      (fun a b => strLe a.Period b.Period = true) := by
  obtain ⟨hvals, hnd, hfk, hsk, hsub⟩ :=
    mergeCounts_spec
      (fun key => (closedTimes issues s e).countP
        (fun t => fmtDay (labelOf (selectPeriodThroughput s e) (dayIndex t)) == key))
      (fun key => (mergedTimes prs s e).countP
        (fun t => fmtDay (labelOf (selectPeriodThroughput s e) (dayIndex t)) == key))
      ((groupCounts (selectPeriodThroughput s e) (closedTimes issues s e)).map
        (fun bc => (fmtDay bc.1, bc.2)))
      ((groupCounts (selectPeriodThroughput s e) (mergedTimes prs s e)).map
        (fun bc => (fmtDay bc.1, bc.2)))
      (mappedGroup_nodup (selectPeriodThroughput s e) (closedTimes issues s e))
      (mappedGroup_nodup (selectPeriodThroughput s e) (mergedTimes prs s e))
      (mappedGroup_val (selectPeriodThroughput s e) (closedTimes issues s e))
      (mappedGroup_val (selectPeriodThroughput s e) (mergedTimes prs s e))
      (mappedGroup_zero (selectPeriodThroughput s e) (closedTimes issues s e))
      (mappedGroup_zero (selectPeriodThroughput s e) (mergedTimes prs s e))
  have hperm : (create_throughput_data issues prs s e).Perm
      ((mergeCounts
        ((groupCounts (selectPeriodThroughput s e) (closedTimes issues s e)).map
          (fun bc => (fmtDay bc.1, bc.2)))
        ((groupCounts (selectPeriodThroughput s e) (mergedTimes prs s e)).map
          (fun bc => (fmtDay bc.1, bc.2)))).map
        (fun x => TRow.mk x.1 x.2.1 x.2.2)) :=
    (sortLe_perm _ _).map _
  refine ⟨?_, ?_, ?_, ?_⟩
  · intro r hr
    rcases List.mem_map.mp (hperm.mem_iff.mp hr) with ⟨x, hx, hxr⟩
    subst hxr
    obtain ⟨h1, h2⟩ := hvals x hx
    exact ⟨h1, h2⟩
  · intro t ht
    have hkey := mappedGroup_complete (selectPeriodThroughput s e) (closedTimes issues s e) t ht
    rcases List.mem_map.mp hkey with ⟨ee, hee, heek⟩
    rcases List.mem_map.mp (hfk ee hee) with ⟨me, hme, hmek⟩
    refine ⟨TRow.mk me.1 me.2.1 me.2.2,
      hperm.mem_iff.mpr (List.mem_map_of_mem _ hme), ?_⟩
    show me.1 = bucketKey (selectPeriodThroughput s e) t
    unfold bucketKey
    rw [hmek, heek]
  · intro t ht
    have hkey := mappedGroup_complete (selectPeriodThroughput s e) (mergedTimes prs s e) t ht
    rcases List.mem_map.mp hkey with ⟨ee, hee, heek⟩
    rcases List.mem_map.mp (hsk ee hee) with ⟨me, hme, hmek⟩
    refine ⟨TRow.mk me.1 me.2.1 me.2.2,
      hperm.mem_iff.mpr (List.mem_map_of_mem _ hme), ?_⟩
    show me.1 = bucketKey (selectPeriodThroughput s e) t
    unfold bucketKey
    rw [hmek, heek]
  · have hpw := sortLe_pairwise (fun a b : String × Nat × Nat => strLe a.1 b.1)
      (fun a b => strLe_total a.1 b.1)
      (fun a b c h1 h2 => strLe_trans a.1 b.1 c.1 h1 h2)
      (mergeCounts
        ((groupCounts (selectPeriodThroughput s e) (closedTimes issues s e)).map
          (fun bc => (fmtDay bc.1, bc.2)))
        ((groupCounts (selectPeriodThroughput s e) (mergedTimes prs s e)).map
          (fun bc => (fmtDay bc.1, bc.2))))
    exact List.pairwise_map.mpr hpw

/-- C5 witness: one closed issue an hour into the window, a three-day window
(daily buckets): its bucket appears as a row keyed by the bucket's day. -/
theorem C5_throughput_witness :
    3600 ∈ closedTimes [sampleIssue 1 "closed" 0 (some 3600) "a"] 0 (86400 * 3) ∧
    ∃ r ∈ create_throughput_data [sampleIssue 1 "closed" 0 (some 3600) "a"] [] 0 (86400 * 3),
      r.Period = bucketKey (selectPeriodThroughput 0 (86400 * 3)) 3600 :=
  ⟨by decide,
   (C5_throughput [sampleIssue 1 "closed" 0 (some 3600) "a"] [] 0 (86400 * 3)).2.1
     3600 (by decide)⟩

/-! ## Period key formats (throughput versus cycle time) -/

theorem string_data_append (s t : String) : (s ++ t).data = s.data ++ t.data := rfl

theorem hyphen_not_mem_natDigits (n : Nat) : Char.ofNat 45 ∉ natDigits n := by
  intro h
  have hr := natDigits_range n _ h
  have h45 : (Char.ofNat 45).toNat = 45 := by decide
  rw [h45] at hr
  omega

theorem slash_not_mem_natDigits (n : Nat) : Char.ofNat 47 ∉ natDigits n := by
  intro h
  have hr := natDigits_range n _ h
  have h47 : (Char.ofNat 47).toNat = 47 := by decide
  rw [h47] at hr
  omega

theorem twoDigits_range (m : Nat) : ∀ c ∈ twoDigits m, 48 ≤ c.toNat ∧ c.toNat ≤ 57 := by
  intro c hc
  rcases List.mem_cons.mp hc with h | h
  · rw [h, digitChar_toNat _ (by omega)]
    omega
  · rw [List.mem_singleton.mp h, digitChar_toNat _ (by omega)]
    omega

theorem hyphen_not_mem_twoDigits (m : Nat) : Char.ofNat 45 ∉ twoDigits m := by
  intro h
  have hr := twoDigits_range m _ h
  have h45 : (Char.ofNat 45).toNat = 45 := by decide
  rw [h45] at hr
  omega

theorem slash_not_mem_twoDigits (m : Nat) : Char.ofNat 47 ∉ twoDigits m := by
  intro h
  have hr := twoDigits_range m _ h
  have h47 : (Char.ofNat 47).toNat = 47 := by decide
  rw [h47] at hr
  omega

theorem fmtYMD_data (y m d : Nat) : (fmtYMD y m d).data =
    natDigits y ++ Char.ofNat 45 :: (twoDigits m ++ Char.ofNat 45 :: twoDigits d) := rfl

theorem count_hyphen_fmtYMD (y m d : Nat) :
    (fmtYMD y m d).data.count (Char.ofNat 45) = 2 := by
  rw [fmtYMD_data]
  simp [List.count_append, List.count_cons,
    List.count_eq_zero.mpr (hyphen_not_mem_natDigits y),
    List.count_eq_zero.mpr (hyphen_not_mem_twoDigits m),
    List.count_eq_zero.mpr (hyphen_not_mem_twoDigits d)]

theorem count_hyphen_fmtDay (d : Nat) :
    (fmtDay d).data.count (Char.ofNat 45) = 2 :=
  count_hyphen_fmtYMD (ymdOfDay d).1 (ymdOfDay d).2.1 (ymdOfDay d).2.2

theorem slash_not_mem_fmtDay (d : Nat) : Char.ofNat 47 ∉ (fmtDay d).data := by
  show Char.ofNat 47 ∉ (fmtYMD (ymdOfDay d).1 (ymdOfDay d).2.1 (ymdOfDay d).2.2).data
  rw [fmtYMD_data]
  intro h
  rcases List.mem_append.mp h with h1 | h1
  · exact slash_not_mem_natDigits _ h1
  · rcases List.mem_cons.mp h1 with h2 | h2
    · exact absurd (congrArg Char.toNat h2) (by decide)
    · rcases List.mem_append.mp h2 with h3 | h3
      · exact slash_not_mem_twoDigits _ h3
      · rcases List.mem_cons.mp h3 with h4 | h4
        · exact absurd (congrArg Char.toNat h4) (by decide)
        · exact slash_not_mem_twoDigits _ h4

theorem periodStr_M_count_hyphen (t : Nat) :
    (periodStr Freq.M t).data.count (Char.ofNat 45) = 1 := by
  show (natDigits (ymdOfDay (dayIndex t)).1 ++
    Char.ofNat 45 :: twoDigits (ymdOfDay (dayIndex t)).2.1).count (Char.ofNat 45) = 1
  simp [List.count_append, List.count_cons,
    List.count_eq_zero.mpr (hyphen_not_mem_natDigits (ymdOfDay (dayIndex t)).1),
    List.count_eq_zero.mpr (hyphen_not_mem_twoDigits (ymdOfDay (dayIndex t)).2.1)]

theorem periodStr_W_slash_mem (t : Nat) :
    Char.ofNat 47 ∈ (periodStr Freq.W t).data := by
  show Char.ofNat 47 ∈
    (fmtDay (nextSunday (dayIndex t) - 6) ++ "/" ++ fmtDay (nextSunday (dayIndex t))).data
  rw [string_data_append, string_data_append]
  refine List.mem_append.mpr (Or.inl (List.mem_append.mpr (Or.inr ?_)))
  decide

theorem mergeCounts_keys_sub (firsts seconds : List (String × Nat)) :
    (mergeCounts firsts seconds).map (fun r => r.1) ⊆
      firsts.map (fun x => x.1) ++ seconds.map (fun x => x.1) := by
  intro a ha
  have h := applySeconds_keys_sub seconds (firsts.map (fun x => (x.1, x.2, 0))) ha
  have hbase : (firsts.map (fun x => (x.1, x.2, 0))).map (fun r : String × Nat × Nat => r.1)
      = firsts.map (fun x => x.1) := by
    rw [List.map_map]
    rfl
  rw [hbase] at h
  exact h

theorem throughput_period_shape (issues : List Issue) (prs : List PullReq) (s e : Nat) :
    ∀ r ∈ create_throughput_data issues prs s e, ∃ b, r.Period = fmtDay b := by
  intro r hr
  have hperm : (create_throughput_data issues prs s e).Perm
      ((mergeCounts
        ((groupCounts (selectPeriodThroughput s e) (closedTimes issues s e)).map
          (fun bc => (fmtDay bc.1, bc.2)))
        ((groupCounts (selectPeriodThroughput s e) (mergedTimes prs s e)).map
          (fun bc => (fmtDay bc.1, bc.2)))).map
        (fun x => TRow.mk x.1 x.2.1 x.2.2)) :=
    (sortLe_perm _ _).map _
  rcases List.mem_map.mp (hperm.mem_iff.mp hr) with ⟨x, hx, hxr⟩
  subst hxr
  have hkey := mergeCounts_keys_sub _ _ (List.mem_map_of_mem (fun r => r.1) hx)
  rcases List.mem_append.mp hkey with h3 | h3
  · rw [mappedGroup_keys] at h3
    rcases List.mem_map.mp h3 with ⟨b, _, hb⟩
    exact ⟨b, hb.symm⟩
  · rw [mappedGroup_keys] at h3
    rcases List.mem_map.mp h3 with ⟨b, _, hb⟩
    exact ⟨b, hb.symm⟩

theorem cycle_period_shape (prs : List PullReq) (s e : Nat) :
    ∀ r ∈ create_cycle_time_data prs s e,
      ∃ t, r.Period = periodStr (selectPeriodCycleTime s e) t := by
  intro r hr
  unfold create_cycle_time_data at hr
  by_cases hemp : (cycleItems prs s e).isEmpty
  · rw [if_pos hemp] at hr
    cases hr
  · rw [if_neg hemp] at hr
    rcases List.mem_map.mp hr with ⟨k, hk, hkr⟩
    have hk2 := (sortLe_perm strLe _).mem_iff.mp hk
    rcases List.mem_map.mp (List.mem_dedup.mp hk2) with ⟨it, _, hit⟩
    refine ⟨it.1, ?_⟩
    rw [← hkr, ← hit]

theorem cycle_period_keys (prs : List PullReq) (s e : Nat)
    (h : (cycleItems prs s e).isEmpty = false) :
    (create_cycle_time_data prs s e).map (fun r => r.Period) =
      sortLe strLe (((cycleItems prs s e).map
        (fun it => periodStr (selectPeriodCycleTime s e) it.1)).dedup) := by
  unfold create_cycle_time_data
  rw [h]
  simp only [Bool.false_eq_true, if_false]
  rw [List.map_map]
  exact List.map_id' _

/-- C10: for every window where the shared period rule does not select daily
buckets (weekly or monthly), no throughput row and no cycle-time row over
the same window have string-equal `Period` keys: the throughput key is the
`strftime('%Y-%m-%d')` rendering of the `Grouper` bin edge, while the
cycle-time key is the `str(pandas.Period)` rendering (`start/end` for a
week, `YYYY-MM` for a month), and those formats never coincide. -/
theorem C10_period_key_formats (issues : List Issue) (prs : List PullReq) (s e : Nat)
    (hf : selectPeriodThroughput s e ≠ Freq.D) :
    ∀ r1 ∈ create_throughput_data issues prs s e,
      ∀ r2 ∈ create_cycle_time_data prs s e, r1.Period ≠ r2.Period := by
  intro r1 hr1 r2 hr2 heq
  obtain ⟨b, hb⟩ := throughput_period_shape issues prs s e r1 hr1
  obtain ⟨t, ht⟩ := cycle_period_shape prs s e r2 hr2
  have hfe : selectPeriodCycleTime s e = selectPeriodThroughput s e := rfl
  rw [hfe] at ht
  cases hcase : selectPeriodThroughput s e with
  | D => exact hf hcase
  | W =>
    rw [hcase] at ht
    have h1 : Char.ofNat 47 ∉ r1.Period.data := by
      rw [hb]
      exact slash_not_mem_fmtDay b
    have h2 : Char.ofNat 47 ∈ r2.Period.data := by
      rw [ht]
      exact periodStr_W_slash_mem t
    rw [heq] at h1
    exact h1 h2
  | M =>
    rw [hcase] at ht
    have h1 : r1.Period.data.count (Char.ofNat 45) = 2 := by
      rw [hb]
      exact count_hyphen_fmtDay b
    have h2 : r2.Period.data.count (Char.ofNat 45) = 1 := by
      rw [ht]
      exact periodStr_M_count_hyphen t
    rw [heq] at h1
    omega

/-- C10 witness: a 20-day window (weekly buckets), one closed issue and one
merged PR in the second ISO week of 1970; the throughput row is keyed
`1970-01-11` while the cycle-time row is keyed `1970-01-05/1970-01-11`, and
the theorem yields their inequality. -/
theorem C10_period_key_formats_witness :
    selectPeriodThroughput 0 (86400 * 20) ≠ Freq.D ∧
    ∃ r1 ∈ create_throughput_data [sampleIssue 1 "closed" 0 (some (86400 * 8)) "a"]
        [samplePR 2 "closed" (86400 * 8) (some (86400 * 9)) "b" "" true] 0 (86400 * 20),
    ∃ r2 ∈ create_cycle_time_data
        [samplePR 2 "closed" (86400 * 8) (some (86400 * 9)) "b" "" true] 0 (86400 * 20),
      r1.Period ≠ r2.Period := by
  have hmem1 : (⟨"1970-01-11", 1, 1⟩ : TRow) ∈ create_throughput_data
      [sampleIssue 1 "closed" 0 (some (86400 * 8)) "a"]
      [samplePR 2 "closed" (86400 * 8) (some (86400 * 9)) "b" "" true] 0 (86400 * 20) := by
    decide
  have hkey : "1970-01-05/1970-01-11" ∈ (create_cycle_time_data
      [samplePR 2 "closed" (86400 * 8) (some (86400 * 9)) "b" "" true] 0
      (86400 * 20)).map (fun r => r.Period) := by
    rw [cycle_period_keys _ _ _ (by decide)]
    decide
  rcases List.mem_map.mp hkey with ⟨r2, hr2, hr2k⟩
  exact ⟨by decide, ⟨"1970-01-11", 1, 1⟩, hmem1, r2, hr2,
    C10_period_key_formats _ _ _ _ (by decide) _ hmem1 r2 hr2⟩

end PMM
